import Mathlib

/-!
Shallow embedding of the rulevis graph construction and analytics engine
(src/src/internal/generator.py and src/src/internal/analyzer.py).

XML elements are modelled as a nested inductive tree (tag, attributes,
text, children), matching what xml.etree.ElementTree exposes to the code.
The networkx MultiDiGraph is modelled as an insertion-ordered node list
(with a fixed-shape attribute record) plus an insertion-ordered edge list
(source, target, relation_type); parallel edges are kept distinctly.
-/

namespace Rulevis

/-! ### Python string primitives used by the source -/

/-- Python regex `\s` / `str.strip` whitespace class (ASCII). -/
def pyIsSpace (c : Char) : Bool :=
  c == ' ' || c == '\t' || c == '\n' || c == '\r' || c.toNat == 11 || c.toNat == 12

/-- ASCII lower-casing, as `str.lower` acts on the inputs involved. -/
def pyToLower (c : Char) : Char :=
  if 65 ≤ c.toNat && c.toNat ≤ 90 then Char.ofNat (c.toNat + 32) else c

def pyLower (s : String) : String := ⟨s.data.map pyToLower⟩

/-- Python `str.strip()`. -/
def pyStrip (s : String) : String :=
  ⟨((s.data.dropWhile pyIsSpace).reverse.dropWhile pyIsSpace).reverse⟩

/-- Truthiness of an optional string: `None` and `""` are falsy. -/
def pyTruthy : Option String → Bool
  | none => false
  | some s => s != ""

/-- Separator class of the reference-splitting pattern `[,\s]+`. -/
def isSepChar (c : Char) : Bool := c == ',' || pyIsSpace c

mutual
/-- `re.split(r"[,\s]+", s)`: accumulate the current token. -/
def splitRunAux : List Char → List Char → List String
  | [], cur => [⟨cur.reverse⟩]
  | c :: cs, cur =>
    if isSepChar c then (⟨cur.reverse⟩ : String) :: skipSeps cs
    else splitRunAux cs (c :: cur)

/-- `re.split(r"[,\s]+", s)`: inside a separator run. -/
def skipSeps : List Char → List String
  | [] => [""]
  | c :: cs => if isSepChar c then skipSeps cs else splitRunAux cs [c]
end

/-- `re.split(r"[,\s]+", s)` (empty tokens survive at either end). -/
def pySplitSeps (s : String) : List String := splitRunAux s.data []

/-- Python `s.split(",")`: split at every comma, keeping empty segments. -/
def splitCommaAux : List Char → List Char → List String
  | [], cur => [⟨cur.reverse⟩]
  | c :: cs, cur =>
    if c == ',' then (⟨cur.reverse⟩ : String) :: splitCommaAux cs []
    else splitCommaAux cs (c :: cur)

def pySplitComma (s : String) : List String := splitCommaAux s.data []

/-- `os.path.basename` for POSIX paths. -/
def pyBasename (s : String) : String := ⟨(s.data.reverse.takeWhile (fun c => c != '/')).reverse⟩

/-- Python `str.isdigit` restricted to ASCII digit strings. -/
def pyIsDigit (s : String) : Bool := !s.data.isEmpty && s.data.all Char.isDigit

/-- `int(s)` for a digit string. -/
def strToNat (s : String) : Nat := s.data.foldl (fun a c => a * 10 + (c.toNat - 48)) 0

/-- Keep the first occurrence of each element (`seen` accumulates). -/
def dedupFirstAux [BEq α] : List α → List α → List α
  | [], _ => []
  | x :: xs, seen =>
    if seen.contains x then dedupFirstAux xs seen else x :: dedupFirstAux xs (x :: seen)

/-- Iteration order of a networkx adjacency view / Python `set` inserted in order:
each element once, first occurrence first. -/
def dedupFirst [BEq α] (l : List α) : List α := dedupFirstAux l []

/-! ### XML elements (xml.etree.ElementTree view) -/

inductive Element : Type where
  | mk (tag : String) (attrs : List (String × String)) (text : Option String)
      (children : List Element)

def Element.tag : Element → String
  | .mk t _ _ _ => t

def Element.attrs : Element → List (String × String)
  | .mk _ a _ _ => a

def Element.text : Element → Option String
  | .mk _ _ tx _ => tx

def Element.children : Element → List Element
  | .mk _ _ _ cs => cs

/-- `element.get(k)`. -/
def Element.getAttr (e : Element) (k : String) : Option String :=
  (e.attrs.find? (fun p => p.1 == k)).map (·.2)

/-- `element.get(k, d)`. -/
def Element.getAttrD (e : Element) (k d : String) : String := (e.getAttr k).getD d

/-- `element.findtext(t, None)`: text of the first child tagged `t`
(ElementTree yields `""` for a matching child whose text is `None`). -/
def Element.findtext (e : Element) (t : String) : Option String :=
  (e.children.find? (fun c => c.tag == t)).map (fun c => c.text.getD "")

/-- `[(i.tag, i.text) for i in element]`. -/
def Element.childPairs (e : Element) : List (String × Option String) :=
  e.children.map (fun c => (c.tag, c.text))

/-! ### The graph (networkx MultiDiGraph) -/

/-- Fixed-shape record for the dynamic node-attribute dict; `none` is an
absent key (or a key set to `None`, which the code never distinguishes). -/
structure NodeAttrs where
  groups : Option (List String)
  description : Option String
  level : Option String
  maxsize : Option String
  file : Option String
  children_ids : Option (List String)
deriving Repr, DecidableEq

def emptyAttrs : NodeAttrs := ⟨none, none, none, none, none, none⟩

structure Graph where
  nodes : List (String × NodeAttrs)
  edges : List (String × String × String)
deriving Repr, DecidableEq

def Graph.empty : Graph := ⟨[], []⟩

def Graph.hasNode (g : Graph) (n : String) : Bool := g.nodes.any (fun p => p.1 == n)

def Graph.nodeIds (g : Graph) : List String := g.nodes.map (·.1)

def Graph.attrsOf (g : Graph) (n : String) : Option NodeAttrs :=
  (g.nodes.find? (fun p => p.1 == n)).map (·.2)

/-- networkx auto-creates endpoints of an added edge with an empty attr dict. -/
def Graph.addBlankNode (g : Graph) (n : String) : Graph :=
  if g.hasNode n then g else ⟨g.nodes ++ [(n, emptyAttrs)], g.edges⟩

/-- `G.add_edge(u, v, relation_type=ty)`. -/
def Graph.addEdge (g : Graph) (u v ty : String) : Graph :=
  let g1 := (g.addBlankNode u).addBlankNode v
  ⟨g1.nodes, g1.edges ++ [(u, v, ty)]⟩

/-- `G.add_node(n, ...)`: update the attributes of an existing node in
place, or append a fresh node. -/
def Graph.addNodeUpd (g : Graph) (n : String) (f : NodeAttrs → NodeAttrs) : Graph :=
  if g.hasNode n then
    ⟨g.nodes.map (fun p => if p.1 == n then (p.1, f p.2) else p), g.edges⟩
  else ⟨g.nodes ++ [(n, f emptyAttrs)], g.edges⟩

/-- `G.in_degree(n)` on a MultiDiGraph: number of in-edges, self-loops and
parallel edges counted. -/
def Graph.inDegree (g : Graph) (n : String) : Nat :=
  (g.edges.filter (fun e => e.2.1 == n)).length

/-- `G.out_degree(n)` on a MultiDiGraph. -/
def Graph.outDegree (g : Graph) (n : String) : Nat :=
  (g.edges.filter (fun e => e.1 == n)).length

/-- `list(G.predecessors(n))`: distinct predecessors, first edge first. -/
def Graph.predecessors (g : Graph) (n : String) : List String :=
  dedupFirst ((g.edges.filter (fun e => e.2.1 == n)).map (·.1))

/-- `list(G.successors(n))`: distinct successors, first edge first. -/
def Graph.successors (g : Graph) (n : String) : List String :=
  dedupFirst ((g.edges.filter (fun e => e.1 == n)).map (·.2.1))

/-- Some edge leads from `u` to `v`. -/
def Graph.HasEdge (g : Graph) (u v : String) : Prop := ∃ ty, (u, v, ty) ∈ g.edges

/-- Graph reachability along directed edges (zero or more steps). -/
def Graph.Reachable (g : Graph) (u v : String) : Prop :=
  Relation.ReflTransGen g.HasEdge u v

/-! ### Parser state (GraphGenerator) -/

abbrev GroupIndex := List (String × List String)

/-- `self.group_membership[k]` read through `.get(k, [])`. -/
def gmGet (gm : GroupIndex) (k : String) : List String :=
  ((gm.find? (fun p => p.1 == k)).map (·.2)).getD []

/-- `self.group_membership[k].append(v)` on a defaultdict(list). -/
def gmAppend : GroupIndex → String → String → GroupIndex
  | [], k, v => [(k, [v])]
  | (k2, vs) :: rest, k, v =>
    if k2 == k then (k2, vs ++ [v]) :: rest else (k2, vs) :: gmAppend rest k v

/-- Register a rule under every one of its groups, in order. -/
def registerGroups (gm : GroupIndex) (groups : List String) (rid : String) : GroupIndex :=
  groups.foldl (fun m gname => gmAppend m gname rid) gm

structure PState where
  G : Graph
  group_membership : GroupIndex
  overwrite_rules : List (Element × String)

def PState.empty : PState := ⟨Graph.empty, [], []⟩

/-! ### Parsing (GraphGenerator.parse_groups_and_rules and helpers) -/

/-- `extract_rule_groups`: inherited groups, then every non-empty
comma-segment of each `group` child with truthy text. -/
def extract_rule_groups (inherited_groups : List String)
    (children : List (String × Option String)) : List String :=
  children.foldl
    (fun acc child =>
      if child.1 == "group" && pyTruthy child.2 then
        acc ++ (pySplitComma (child.2.getD "")).filter (fun g => g != "")
      else acc)
    inherited_groups

/-- `extract_rule_description`: space-join of the texts of all
`description` children with truthy text, `None` when there are none. -/
def extract_rule_description (attributes : List (String × Option String)) : Option String :=
  let description := attributes.foldl
    (fun acc attr =>
      if attr.1 == "description" then
        match attr.2 with
        | some d => if d != "" then acc ++ [d] else acc
        | none => acc
      else acc)
    ([] : List String)
  if description.length > 0 then some (" ".intercalate description) else none

/-- One reference field, as iterated by `add_relationship_edges`:
`re.split(r"[,\s]+", field.strip())`, each token `.strip()`-ped;
falsy fields contribute nothing. -/
def splitRefList (field : Option String) : List String :=
  if pyTruthy field then (pySplitSeps (pyStrip (field.getD ""))).map pyStrip else []

/-- The edges `add_relationship_edges` adds for one rule, in order:
`if_sid`, `if_matched_sid`, then the group members currently in the
index for `if_group` and `if_matched_group`. -/
def relationshipEdges (gm : GroupIndex) (rule_id : String)
    (if_sid if_matched_sid if_group if_matched_group : Option String) :
    List (String × String × String) :=
  (splitRefList if_sid).map (fun sid => (sid, rule_id, "if_sid"))
    ++ (splitRefList if_matched_sid).map (fun sid => (sid, rule_id, "if_matched_sid"))
    ++ (splitRefList if_group).flatMap
        (fun gname => (gmGet gm gname).map (fun parent => (parent, rule_id, "if_group")))
    ++ (splitRefList if_matched_group).flatMap
        (fun gname => (gmGet gm gname).map (fun parent => (parent, rule_id, "if_matched_group")))

/-- `add_relationship_edges` as a state transformer. -/
def add_relationship_edges (st : PState) (rule_id : String)
    (if_sid if_matched_sid if_group if_matched_group : Option String) : PState :=
  { st with
    G := (relationshipEdges st.group_membership rule_id
            if_sid if_matched_sid if_group if_matched_group).foldl
          (fun g e => g.addEdge e.1 e.2.1 e.2.2) st.G }

mutual
/-- `parse_groups_and_rules(element, inherited_groups, xml_file)`. -/
def parse_groups_and_rules (st : PState) (element : Element)
    (inherited_groups : List String) (xml_file : String) : PState :=
  match element with
  | .mk tag attrs tx children =>
    let e := Element.mk tag attrs tx children
    if tag == "rule" then
      if pyLower (e.getAttrD "overwrite" "") == "yes" then
        { st with overwrite_rules := st.overwrite_rules ++ [(e, xml_file)] }
      else
        let rule_id := e.getAttrD "id" "0"
        let rule_level := e.getAttr "level"
        let if_sid := e.findtext "if_sid"
        let if_matched_sid := e.findtext "if_matched_sid"
        let if_group := e.findtext "if_group"
        let if_matched_group := e.findtext "if_matched_group"
        let attributes := e.childPairs
        let rule_description := extract_rule_description attributes
        let all_groups := extract_rule_groups inherited_groups attributes
        if st.G.hasNode rule_id then st
        else
          let g1 := st.G.addNodeUpd rule_id (fun _ =>
            ⟨some all_groups, rule_description, rule_level, none,
              some (pyBasename xml_file), none⟩)
          let gm1 := registerGroups st.group_membership all_groups rule_id
          add_relationship_edges { st with G := g1, group_membership := gm1 } rule_id
            if_sid if_matched_sid if_group if_matched_group
    else if tag == "group" then
      let group_attribute := e.getAttrD "name" ""
      let internal_groups := (pySplitComma group_attribute).filter (fun gr => gr != "")
      parseChildList st children (inherited_groups ++ internal_groups) xml_file
    else st
termination_by structural element

/-- The `for child in element` recursion of the `group` branch. -/
def parseChildList (st : PState) (elements : List Element)
    (inherited_groups : List String) (xml_file : String) : PState :=
  match elements with
  | [] => st
  | e :: rest =>
    parseChildList (parse_groups_and_rules st e inherited_groups xml_file)
      rest inherited_groups xml_file
termination_by structural elements
end

/-! ### Overwrite pass and root synthesis (build_graph_from_xml) -/

/-- The attribute mutations of one overwrite application: description
(only if the overwrite supplies a truthy one), level and maxsize (only
if present and truthy on the element), file (unconditionally). -/
def overwritePatch (e : Element) (ow_file : String) (a : NodeAttrs) : NodeAttrs :=
  let desc := extract_rule_description e.childPairs
  let a1 := if pyTruthy desc then { a with description := desc } else a
  let a2 := if pyTruthy (e.getAttr "level") then
      { a1 with level := e.getAttr "level" } else a1
  let a3 := if pyTruthy (e.getAttr "maxsize") then
      { a2 with maxsize := e.getAttr "maxsize" } else a2
  { a3 with file := some (pyBasename ow_file) }

/-- One iteration of the overwrite loop: patch an existing node, skip
silently otherwise (an absent `id` attribute is never in the node set). -/
def applyOverwriteEntry (g : Graph) (entry : Element × String) : Graph :=
  match entry.1.getAttr "id" with
  | none => g
  | some rule_id =>
    if g.hasNode rule_id then
      g.addNodeUpd rule_id (overwritePatch entry.1 entry.2)
    else g

/-- The second (overwrite) pass of `build_graph_from_xml`. -/
def apply_overwrites (st : PState) : PState :=
  { st with G := st.overwrite_rules.foldl applyOverwriteEntry st.G }

/-- The attribute payload of `G.add_node("0", description=..., groups=["__meta__"])`. -/
def rootPatch (a : NodeAttrs) : NodeAttrs :=
  { a with description := some "Synthetic root node", groups := some ["__meta__"] }

/-- Root synthesis (generator.py lines 182-191): collect the zero
in-degree nodes (`first_level_rules`, computed on the graph before the
root node is added), add/update the synthetic root `"0"`, then add a
`root` edge to each collected node. -/
def root_synthesis (g : Graph) : Graph :=
  (g.nodeIds.filter (fun n => g.inDegree n == 0)).foldl
    (fun h n => h.addEdge "0" n "root") (g.addNodeUpd "0" rootPatch)

/-- The child-precomputation loop at the end of `build_graph_from_xml`. -/
def precompute_children (g : Graph) : Graph :=
  g.nodeIds.foldl
    (fun h n => h.addNodeUpd n (fun a => { a with children_ids := some (g.successors n) }))
    g

/-- `build_graph_from_xml` after file IO and XML deserialization: each
input file contributes its top-level element list, parsed in order with
no inherited groups; then the overwrite pass, root synthesis, and child
precomputation run globally. -/
def build_graph_from_xml (files : List (String × List Element)) : PState :=
  let st1 := files.foldl (fun s fe => parseChildList s fe.2 [] fe.1) PState.empty
  let st2 := apply_overwrites st1
  { st2 with G := precompute_children (root_synthesis st2.G) }

/-! ### Sanitizer (generator.py REGEX_FINDER, lines 13-14, and
`__remove_regex_field`, lines 216-231)

`re.compile(r"<regex\s+.*?>(.*?)</regex>", re.DOTALL | re.IGNORECASE)`
substituted by the empty string: at each position, the pattern needs the
literal `<regex` (case-insensitively), at least one whitespace
character, then runs lazily to the first `>` and from there lazily to
the first `</regex>`; `re.sub` scans left to right and resumes after
each removed match. -/

/-- Case-insensitive prefix test (the pattern side is lowercase). -/
def ciStarts : List Char → List Char → Bool
  | [], _ => true
  | _ :: _, [] => false
  | p :: ps, c :: cs => p == pyToLower c && ciStarts ps cs

/-- Rest of the input after the first `>` (the lazy `.*?>`). -/
def afterGt : List Char → Option (List Char)
  | [] => none
  | c :: cs => if c == '>' then some cs else afterGt cs

/-- Rest of the input after the first case-insensitive occurrence of
`pat` (the lazy `(.*?)</regex>`). -/
def afterCI (pat : List Char) : List Char → Option (List Char)
  | [] => if ciStarts pat [] then some [] else none
  | c :: cs =>
    if ciStarts pat (c :: cs) then some ((c :: cs).drop pat.length) else afterCI pat cs

def openTag : List Char := ['<', 'r', 'e', 'g', 'e', 'x']

def closeTag : List Char := ['<', '/', 'r', 'e', 'g', 'e', 'x', '>']

/-- One attempt of REGEX_FINDER anchored at the start of `s`; on success
returns the input with the whole match removed from the front. -/
def regexMatchRest (s : List Char) : Option (List Char) :=
  if ciStarts openTag s then
    match s.drop 6 with
    | [] => none
    | c :: cs => if pyIsSpace c then (afterGt cs).bind (afterCI closeTag) else none
  else none

/-- The `REGEX_FINDER.sub("", s)` scan; the fuel only serves
termination and `s.length` is always enough. -/
def removeRegexAux : Nat → List Char → List Char
  | 0, s => s
  | _ + 1, [] => []
  | fuel + 1, c :: cs =>
    match regexMatchRest (c :: cs) with
    | some rest => removeRegexAux fuel rest
    | none => c :: removeRegexAux fuel cs

/-- `__remove_regex_field`. -/
def remove_regex_field (s : String) : String := ⟨removeRegexAux s.data.length s.data⟩

/-! ### Analytics (analyzer.py, Analyzer.calculate_statistics and
calculate_heatmap_data) -/

/-- The sources of the `if_group`-kind edges pointing into `r`. -/
def ifGroupSources (g : Graph) (r : String) : List String :=
  (g.edges.filter (fun e => e.2.1 == r && e.2.2 == "if_group")).map (·.1)

/-- `real_nodes`: every node except the synthetic root. -/
def realNodes (g : Graph) : List String := g.nodeIds.filter (fun n => n != "0")

/-- `isolated_rules` (analyzer.py lines 52-55). -/
def isolated_rules (g : Graph) : List String :=
  (realNodes g).filter (fun n => g.outDegree n == 0 && g.predecessors n == ["0"])

/-- `nodes_with_selfloops(G)`: nodes carrying at least one self-loop,
each reported once. -/
def nodes_with_selfloops (g : Graph) : List String :=
  dedupFirst ((g.edges.filter (fun e => e.1 == e.2.1)).map (·.1))

/-- The cycle post-processing of `calculate_statistics` (lines 57-80):
drop every simple cycle meeting the self-loop set, then close each
surviving non-empty cycle by appending its first node.  The raw output
of `networkx.simple_cycles` is taken as an argument. -/
def filtered_multi_node_cycles (g : Graph) (all_simple_cycles : List (List String)) :
    List (List String) :=
  ((all_simple_cycles.filter
      (fun cycle => !(cycle.any (fun x => (nodes_with_selfloops g).contains x)))).map
    (fun cycle => if cycle.isEmpty then cycle else cycle ++ [cycle.headD ""]))

/-- `all_rule_ids`: the set of integer values of the purely numeric node
identifiers other than the string `"0"`. -/
def numeric_rule_ids (g : Graph) : List Nat :=
  dedupFirst ((g.nodeIds.filter (fun n => pyIsDigit n && n != "0")).map strToNat)

/-- The node identifiers `calculate_heatmap_data` considers numeric
(before `int()` conversion and set-deduplication). -/
def numericIdStrings (g : Graph) : List String :=
  g.nodeIds.filter (fun n => pyIsDigit n && n != "0")

def listMax (l : List Nat) : Nat := l.foldl max 0

/-- The `dynamic_max_range` of `calculate_heatmap_data`:
`max(ceil(actual_max_id / block_size) * block_size, block_size)`,
or `0` when no numeric identifier exists. -/
def heatmapUpper (g : Graph) (block_size : Nat) : Nat :=
  if (numeric_rule_ids g).isEmpty then 0
  else max ((listMax (numeric_rule_ids g) + block_size - 1) / block_size * block_size)
    block_size

/-- The `blocks` list of `calculate_heatmap_data` as (start, count)
pairs: one block per `range(0, dynamic_max_range, block_size)` step,
counting the ids inside `[start, start + block_size - 1]`. -/
def calculate_heatmap_blocks (g : Graph) (block_size : Nat) : List (Nat × Nat) :=
  if (numeric_rule_ids g).isEmpty then []
  else
    (List.range (heatmapUpper g block_size / block_size)).map (fun k =>
      (k * block_size,
        ((numeric_rule_ids g).filter (fun r =>
          decide (k * block_size ≤ r) && decide (r ≤ k * block_size + block_size - 1))).length))

/-! ### Concrete fixtures used by witnesses and counterexamples -/

/-- A rule that references itself through `if_sid` (spec §8 example `9`). -/
def ruleNine : Element := .mk "rule" [("id", "9")] none [.mk "if_sid" [] (some "9") []]

/-- A rule element with no `id` attribute: the parser defaults it to `"0"`. -/
def ruleNoId : Element := .mk "rule" [] none []

/-- A rule that is itself a member (via its own `group` child) of the
group its `if_group` references. -/
def ruleSeven : Element := .mk "rule" [("id", "7")] none
  [.mk "group" [] (some "g") [], .mk "if_group" [] (some "g") []]

/-- The state produced from one file holding `ruleNine` and `ruleNoId`. -/
def stC1 : PState := build_graph_from_xml [("f.xml", [ruleNine, ruleNoId])]

/-- Three rule identifiers that are all purely numeric but denote only
two distinct integers, one of which sits exactly at a block boundary. -/
def gC3 : Graph := ⟨[("1", emptyAttrs), ("01", emptyAttrs), ("10", emptyAttrs)], []⟩

/-- A one-node graph carrying an existing base rule `"5"`. -/
def gC2 : Graph := ⟨[("5", ⟨some ["grp"], some "old", some "3", none, some "a.xml", none⟩)], []⟩

/-- An overwrite element for rule `"5"` supplying a new level only. -/
def eC2 : Element := .mk "rule" [("id", "5"), ("overwrite", "yes"), ("level", "9")] none []

/-- A state already holding node `"5"`, for the duplicate-rule witness. -/
def stC6 : PState := ⟨⟨[("5", emptyAttrs)], []⟩, [], []⟩

/-- A second base definition of rule `"5"`. -/
def eC6 : Element := .mk "rule" [("id", "5")] none [.mk "description" [] (some "dup") []]

/-- A graph with one self-loop on `"3"` and an ordinary edge. -/
def gC7 : Graph := ⟨[("3", emptyAttrs), ("4", emptyAttrs), ("5", emptyAttrs)],
  [("3", "3", "if_sid"), ("4", "5", "if_sid"), ("5", "4", "if_sid")]⟩

/-- A group scope `a` wrapping a rule `5` that declares group `d`. -/
def eC9group : Element := .mk "group" [("name", "a,,b")] none
  [.mk "rule" [("id", "5")] none [.mk "group" [] (some "d,") []]]

/-- The inner rule of `eC9group`. -/
def eC9rule : Element := .mk "rule" [("id", "5")] none [.mk "group" [] (some "d,") []]

/-- A graph in which `"0"` already exists as a parsed rule with no
incoming edges (as a rule element missing its `id` attribute yields). -/
def gC10 : Graph := ⟨[("0", ⟨some [], none, some "2", none, some "z.xml", none⟩)], []⟩

/-- A state whose group index already has a member for `syslog`, and a
rule referencing that group (spec §8 two-file example). -/
def stC4 : PState :=
  ⟨⟨[("100001", emptyAttrs)], []⟩, [("syslog", ["100001"])], []⟩

/-- `if_group=syslog` referencing the already registered member. -/
def eC4 : Element := .mk "rule" [("id", "100002")] none
  [.mk "if_group" [] (some "syslog") []]

/-- A graph for the heatmap witness: ids 3 and 17. -/
def gC3w : Graph := ⟨[("3", emptyAttrs), ("17", emptyAttrs)], []⟩

/-- A rule that joins group `syslog` only after `eC4` was processed. -/
def eC4later : Element := .mk "rule" [("id", "100003")] none
  [.mk "group" [] (some "syslog") []]

/-! ### Basic lemmas about the graph operations -/

theorem addBlankNode_edges (g : Graph) (n : String) :
    (g.addBlankNode n).edges = g.edges := by
  unfold Graph.addBlankNode; split <;> rfl

theorem addEdge_edges (g : Graph) (u v ty : String) :
    (g.addEdge u v ty).edges = g.edges ++ [(u, v, ty)] := by
  simp [Graph.addEdge, addBlankNode_edges]

theorem addNodeUpd_edges (g : Graph) (n : String) (f : NodeAttrs → NodeAttrs) :
    (g.addNodeUpd n f).edges = g.edges := by
  unfold Graph.addNodeUpd; split <;> rfl

theorem hasNode_iff_mem (g : Graph) (n : String) :
    g.hasNode n = true ↔ n ∈ g.nodeIds := by
  simp [Graph.hasNode, Graph.nodeIds, List.any_eq_true]

theorem addBlankNode_nodeIds (g : Graph) (n : String) :
    (g.addBlankNode n).nodeIds = if g.hasNode n then g.nodeIds else g.nodeIds ++ [n] := by
  unfold Graph.addBlankNode; split <;> simp [Graph.nodeIds]

theorem addNodeUpd_nodeIds (g : Graph) (n : String) (f : NodeAttrs → NodeAttrs) :
    (g.addNodeUpd n f).nodeIds = if g.hasNode n then g.nodeIds else g.nodeIds ++ [n] := by
  unfold Graph.addNodeUpd; split <;> simp [Graph.nodeIds]
  intro a b _
  split <;> rfl

theorem find?_map_upd (l : List (String × NodeAttrs)) (n : String) (f : NodeAttrs → NodeAttrs) :
    (((l.map (fun p => if p.1 == n then (p.1, f p.2) else p)).find?
        (fun q => q.1 == n)).map (fun q => q.2))
      = ((l.find? (fun q => q.1 == n)).map (fun q => q.2)).map f := by
  induction l with
  | nil => rfl
  | cons p rest ih =>
    rcases p with ⟨k, v⟩
    simp only [List.map_cons]
    by_cases hp : k = n
    · subst hp
      rw [if_pos (by simp), List.find?_cons_of_pos _ (by simp),
        List.find?_cons_of_pos _ (by simp)]
      rfl
    · have hb : (k == n) = false := by simpa using hp
      rw [if_neg (by simp [hb]), List.find?_cons_of_neg _ (by simp [hb]),
        List.find?_cons_of_neg _ (by simp [hb])]
      exact ih

theorem find?_map_upd_other (l : List (String × NodeAttrs)) (n m : String)
    (f : NodeAttrs → NodeAttrs) (hmn : m ≠ n) :
    ((l.map (fun p => if p.1 == n then (p.1, f p.2) else p)).find? (fun q => q.1 == m))
      = l.find? (fun q => q.1 == m) := by
  induction l with
  | nil => rfl
  | cons p rest ih =>
    rcases p with ⟨k, v⟩
    simp only [List.map_cons]
    by_cases hk : k = m
    · subst hk
      have hkn : (k == n) = false := by simpa using fun h => hmn h
      rw [if_neg (by simp [hkn]), List.find?_cons_of_pos _ (by simp),
        List.find?_cons_of_pos _ (by simp)]
    · by_cases hn : k = n
      · subst hn
        rw [if_pos (by simp), List.find?_cons_of_neg _ (by simpa using fun h => hk h),
          List.find?_cons_of_neg _ (by simpa using fun h => hk h)]
        exact ih
      · rw [if_neg (by simpa using fun h => hn h),
          List.find?_cons_of_neg _ (by simpa using fun h => hk h),
          List.find?_cons_of_neg _ (by simpa using fun h => hk h)]
        exact ih

theorem find?_append_none {l1 l2 : List α} {p : α → Bool} (h : l1.find? p = none) :
    (l1 ++ l2).find? p = l2.find? p := by
  induction l1 with
  | nil => rfl
  | cons x rest ih =>
    cases hx : p x with
    | true =>
      rw [List.find?_cons_of_pos _ hx] at h
      exact absurd h (by simp)
    | false =>
      rw [List.find?_cons_of_neg _ (by simp [hx])] at h
      rw [List.cons_append, List.find?_cons_of_neg _ (by simp [hx])]
      exact ih h

theorem find?_append_some {l1 l2 : List α} {p : α → Bool} {x : α} (h : l1.find? p = some x) :
    (l1 ++ l2).find? p = some x := by
  induction l1 with
  | nil => simp at h
  | cons y rest ih =>
    cases hy : p y with
    | true =>
      rw [List.find?_cons_of_pos _ hy] at h
      rw [List.cons_append, List.find?_cons_of_pos _ hy]
      exact h
    | false =>
      rw [List.find?_cons_of_neg _ (by simp [hy])] at h
      rw [List.cons_append, List.find?_cons_of_neg _ (by simp [hy])]
      exact ih h

theorem hasNode_find?_none (g : Graph) (n : String) (h : g.hasNode n = false) :
    g.nodes.find? (fun q => q.1 == n) = none := by
  rw [List.find?_eq_none]
  intro p hp hb
  have hh : g.hasNode n = true := by
    rw [Graph.hasNode, List.any_eq_true]
    exact ⟨p, hp, hb⟩
  rw [hh] at h
  exact absurd h (by simp)

theorem attrsOf_addNodeUpd_self (g : Graph) (n : String) (f : NodeAttrs → NodeAttrs)
    (h : g.hasNode n = true) :
    (g.addNodeUpd n f).attrsOf n = (g.attrsOf n).map f := by
  unfold Graph.addNodeUpd Graph.attrsOf
  rw [if_pos h]
  exact find?_map_upd g.nodes n f

theorem attrsOf_addNodeUpd_fresh (g : Graph) (n : String) (f : NodeAttrs → NodeAttrs)
    (h : g.hasNode n = false) :
    (g.addNodeUpd n f).attrsOf n = some (f emptyAttrs) := by
  unfold Graph.addNodeUpd Graph.attrsOf
  rw [if_neg (by simp [h]), find?_append_none (hasNode_find?_none g n h)]
  simp

theorem attrsOf_addNodeUpd_other (g : Graph) (n m : String) (f : NodeAttrs → NodeAttrs)
    (hmn : m ≠ n) :
    (g.addNodeUpd n f).attrsOf m = g.attrsOf m := by
  unfold Graph.addNodeUpd Graph.attrsOf
  split
  · rw [find?_map_upd_other g.nodes n m f hmn]
  · rcases hf : g.nodes.find? (fun q => q.1 == m) with _ | x
    · rw [find?_append_none hf, hf]
      simp [Ne.symm hmn]
    · rw [find?_append_some hf, hf]

/-- Every field `overwritePatch` leaves alone, and the value of every
field it sets. -/
theorem overwritePatch_fields (e : Element) (ow_file : String) (a : NodeAttrs) :
    (overwritePatch e ow_file a).groups = a.groups ∧
    (overwritePatch e ow_file a).children_ids = a.children_ids ∧
    (overwritePatch e ow_file a).file = some (pyBasename ow_file) ∧
    (overwritePatch e ow_file a).description =
      (if pyTruthy (extract_rule_description e.childPairs) then
        extract_rule_description e.childPairs else a.description) ∧
    (overwritePatch e ow_file a).level =
      (if pyTruthy (e.getAttr "level") then e.getAttr "level" else a.level) ∧
    (overwritePatch e ow_file a).maxsize =
      (if pyTruthy (e.getAttr "maxsize") then e.getAttr "maxsize" else a.maxsize) := by
  unfold overwritePatch
  split <;> split <;> split <;> simp_all

theorem applyOverwriteEntry_edges (g : Graph) (entry : Element × String) :
    (applyOverwriteEntry g entry).edges = g.edges := by
  unfold applyOverwriteEntry
  rcases entry.1.getAttr "id" with _ | rid
  · rfl
  · dsimp only
    split
    · exact addNodeUpd_edges ..
    · rfl

theorem applyOverwriteEntry_nodeIds (g : Graph) (entry : Element × String) :
    (applyOverwriteEntry g entry).nodeIds = g.nodeIds := by
  unfold applyOverwriteEntry
  rcases entry.1.getAttr "id" with _ | rid
  · rfl
  · dsimp only
    split
    · rw [addNodeUpd_nodeIds, if_pos (by assumption)]
    · rfl

theorem applyOverwriteEntry_groups (g : Graph) (entry : Element × String) (m : String) :
    ((applyOverwriteEntry g entry).attrsOf m).map (fun a => a.groups)
      = (g.attrsOf m).map (fun a => a.groups) := by
  unfold applyOverwriteEntry
  rcases entry.1.getAttr "id" with _ | rid
  · rfl
  · dsimp only
    split
    · by_cases hm : m = rid
      · subst hm
        rw [attrsOf_addNodeUpd_self g m _ (by assumption)]
        rcases g.attrsOf m with _ | a
        · rfl
        · simp [(overwritePatch_fields entry.1 entry.2 a).1]
      · rw [attrsOf_addNodeUpd_other g rid m _ hm]
    · rfl

theorem foldl_overwrites_frame (l : List (Element × String)) (g : Graph) :
    (l.foldl applyOverwriteEntry g).edges = g.edges ∧
    (l.foldl applyOverwriteEntry g).nodeIds = g.nodeIds ∧
    ∀ m, ((l.foldl applyOverwriteEntry g).attrsOf m).map (fun a => a.groups)
      = (g.attrsOf m).map (fun a => a.groups) := by
  induction l generalizing g with
  | nil => exact ⟨rfl, rfl, fun _ => rfl⟩
  | cons ent rest ih =>
    refine ⟨?_, ?_, ?_⟩
    · rw [List.foldl_cons, (ih (applyOverwriteEntry g ent)).1, applyOverwriteEntry_edges]
    · rw [List.foldl_cons, (ih (applyOverwriteEntry g ent)).2.1, applyOverwriteEntry_nodeIds]
    · intro m
      rw [List.foldl_cons, (ih (applyOverwriteEntry g ent)).2.2 m,
        applyOverwriteEntry_groups]

/-- A claim-oriented restatement of C6: a second non-overwrite
definition of an already existing identifier is a complete no-op. -/
theorem c6_duplicate_rule_noop (st : PState) (e : Element) (inh : List String) (file : String)
    (h_tag : e.tag = "rule")
    (h_ow : pyLower (e.getAttrD "overwrite" "") ≠ "yes")
    (h_dup : st.G.hasNode (e.getAttrD "id" "0") = true) :
    parse_groups_and_rules st e inh file = st := by
  obtain ⟨tag, attrs, tx, children⟩ := e
  simp only [Element.tag] at h_tag
  subst h_tag
  rw [parse_groups_and_rules]
  simp only [beq_self_eq_true, if_true, if_pos]
  rw [if_neg (by simpa using h_ow), if_pos h_dup]

/-- C2: for every queued overwrite whose target identifier exists as a
node, applying the overwrite changes at most the target's description
(only when the overwrite supplies a truthy one), level and maxsize
(only when present and truthy), and origin file (unconditionally);
edges and all other nodes are untouched, and the whole overwrite pass
never changes the edge list, the node set, or any node's group list. -/
theorem c2_overwrite_frame :
    (∀ st : PState,
      (apply_overwrites st).G.edges = st.G.edges ∧
      (apply_overwrites st).G.nodeIds = st.G.nodeIds ∧
      ∀ m, ((apply_overwrites st).G.attrsOf m).map (fun a => a.groups)
        = (st.G.attrsOf m).map (fun a => a.groups)) ∧
    ∀ (g : Graph) (e : Element) (f rid : String),
      e.getAttr "id" = some rid → g.hasNode rid = true →
      (applyOverwriteEntry g (e, f)).edges = g.edges ∧
      (∀ m, m ≠ rid → (applyOverwriteEntry g (e, f)).attrsOf m = g.attrsOf m) ∧
      (applyOverwriteEntry g (e, f)).attrsOf rid = (g.attrsOf rid).map (overwritePatch e f) ∧
      ∀ a, (overwritePatch e f a).groups = a.groups ∧
        (overwritePatch e f a).children_ids = a.children_ids ∧
        (overwritePatch e f a).file = some (pyBasename f) ∧
        (overwritePatch e f a).description =
          (if pyTruthy (extract_rule_description e.childPairs) then
            extract_rule_description e.childPairs else a.description) ∧
        (overwritePatch e f a).level =
          (if pyTruthy (e.getAttr "level") then e.getAttr "level" else a.level) ∧
        (overwritePatch e f a).maxsize =
          (if pyTruthy (e.getAttr "maxsize") then e.getAttr "maxsize" else a.maxsize) := by
  constructor
  · intro st
    exact foldl_overwrites_frame st.overwrite_rules st.G
  · intro g e f rid hid hnode
    refine ⟨applyOverwriteEntry_edges .., ?_, ?_, fun a => overwritePatch_fields e f a⟩
    · intro m hm
      unfold applyOverwriteEntry
      simp only [hid]
      rw [if_pos hnode]
      exact attrsOf_addNodeUpd_other g rid m _ hm
    · unfold applyOverwriteEntry
      simp only [hid]
      rw [if_pos hnode]
      exact attrsOf_addNodeUpd_self g rid _ hnode

/-- C2 witness: the hypotheses of `c2_overwrite_frame` hold at the
concrete overwrite `eC2` on `gC2`, and its conclusion follows there. -/
theorem c2_overwrite_frame_witness :
    (eC2.getAttr "id" = some "5" ∧ gC2.hasNode "5" = true) ∧
      (applyOverwriteEntry gC2 (eC2, "dir/o.xml")).edges = gC2.edges ∧
      (applyOverwriteEntry gC2 (eC2, "dir/o.xml")).attrsOf "5"
        = (gC2.attrsOf "5").map (overwritePatch eC2 "dir/o.xml") :=
  ⟨⟨by decide, by decide⟩,
    (c2_overwrite_frame.2 gC2 eC2 "dir/o.xml" "5" (by decide) (by decide)).1,
    (c2_overwrite_frame.2 gC2 eC2 "dir/o.xml" "5" (by decide) (by decide)).2.2.1⟩

/-- C6 witness: re-defining the already existing rule `"5"` without the
overwrite flag leaves the parser state exactly unchanged. -/
theorem c6_duplicate_rule_noop_witness :
    (eC6.tag = "rule" ∧ pyLower (eC6.getAttrD "overwrite" "") ≠ "yes" ∧
      stC6.G.hasNode (eC6.getAttrD "id" "0") = true) ∧
      parse_groups_and_rules stC6 eC6 ["inh"] "b.xml" = stC6 :=
  ⟨⟨rfl, by decide, by decide⟩,
    c6_duplicate_rule_noop stC6 eC6 ["inh"] "b.xml" rfl (by decide) (by decide)⟩

theorem dedupFirstAux_eq_nil_iff [BEq α] [LawfulBEq α] (l seen : List α) :
    dedupFirstAux l seen = [] ↔ ∀ x ∈ l, x ∈ seen := by
  induction l generalizing seen with
  | nil => simp [dedupFirstAux]
  | cons x xs ih =>
    by_cases h : x ∈ seen
    · have hc : seen.contains x = true := by simpa using h
      simp [dedupFirstAux, hc, ih, h]
    · have hc : seen.contains x = false := by simpa using h
      simp [dedupFirstAux, hc, h]

theorem dedupFirst_singleton_iff [BEq α] [LawfulBEq α] (l : List α) (a : α) :
    dedupFirst l = [a] ↔ l ≠ [] ∧ ∀ x ∈ l, x = a := by
  cases l with
  | nil => simp [dedupFirst, dedupFirstAux]
  | cons x xs =>
    have hstep : dedupFirst (x :: xs) = x :: dedupFirstAux xs [x] := by
      simp [dedupFirst, dedupFirstAux]
    rw [hstep]
    constructor
    · intro h
      have hx : x = a := (List.cons.injEq ..).mp h |>.1
      have hrest : dedupFirstAux xs [x] = [] := (List.cons.injEq ..).mp h |>.2
      subst hx
      refine ⟨List.cons_ne_nil x xs, ?_⟩
      intro y hy
      rcases List.mem_cons.mp hy with h1 | h2
      · exact h1
      · have := (dedupFirstAux_eq_nil_iff xs [x]).mp hrest y h2
        simpa using this
    · rintro ⟨-, hall⟩
      have hx : x = a := hall x (List.mem_cons_self x xs)
      subst hx
      have : dedupFirstAux xs [x] = [] := by
        rw [dedupFirstAux_eq_nil_iff]
        intro y hy
        simpa using hall y (List.mem_cons_of_mem x hy)
      rw [this]

/-- C8: a node other than the root is reported isolated exactly when it
has no outgoing edge, has at least one incoming edge, and every
incoming edge comes from the synthetic root `"0"`. -/
theorem c8_isolated_iff (g : Graph) (n : String) :
    n ∈ isolated_rules g ↔
      n ∈ g.nodeIds ∧ n ≠ "0" ∧ g.outDegree n = 0 ∧
        (∃ e ∈ g.edges, e.2.1 = n) ∧ ∀ e ∈ g.edges, e.2.1 = n → e.1 = "0" := by
  unfold isolated_rules realNodes Graph.predecessors
  rw [List.mem_filter, List.mem_filter]
  simp only [Bool.and_eq_true, beq_iff_eq, bne_iff_ne, ne_eq]
  rw [dedupFirst_singleton_iff]
  constructor
  · rintro ⟨⟨hmem, hne⟩, hdeg, hlist, hall⟩
    refine ⟨hmem, hne, by simpa using hdeg, ?_, ?_⟩
    · rcases List.exists_mem_of_ne_nil _ hlist with ⟨s, hs⟩
      rcases List.mem_map.mp hs with ⟨e, he, -⟩
      have := List.mem_filter.mp he
      exact ⟨e, this.1, by simpa using this.2⟩
    · intro e he htgt
      exact hall e.1 (List.mem_map.mpr ⟨e, List.mem_filter.mpr ⟨he, by simpa using htgt⟩, rfl⟩)
  · rintro ⟨hmem, hne, hdeg, ⟨e, he, htgt⟩, hall⟩
    refine ⟨⟨hmem, hne⟩, by simpa using hdeg, ?_, ?_⟩
    · intro hnil
      have : e.1 ∈ ([] : List String) := by
        rw [← hnil]
        exact List.mem_map.mpr ⟨e, List.mem_filter.mpr ⟨he, by simpa using htgt⟩, rfl⟩
      simp at this
    · intro s hs
      rcases List.mem_map.mp hs with ⟨e2, he2, hfst⟩
      have h2 := List.mem_filter.mp he2
      rw [← hfst]
      exact hall e2 h2.1 (by simpa using h2.2)

/-- C7: every reported multi-node cycle avoids the self-loop set
entirely, and is a node sequence of length at least two whose first
node reappears at the end (assuming, as `networkx.simple_cycles`
guarantees, that every raw cycle is non-empty). -/
theorem c7_cycle_report (g : Graph) (raw : List (List String))
    (hraw : ∀ c ∈ raw, c ≠ []) :
    ∀ c2 ∈ filtered_multi_node_cycles g raw,
      (∀ x ∈ c2, x ∉ nodes_with_selfloops g) ∧
      2 ≤ c2.length ∧ c2.head? = c2.getLast? := by
  intro c2 hc2
  unfold filtered_multi_node_cycles at hc2
  rcases List.mem_map.mp hc2 with ⟨c, hcf, hmap⟩
  have hfil := List.mem_filter.mp hcf
  have hcne : c ≠ [] := hraw c hfil.1
  have hnotany : ∀ x ∈ c, x ∉ nodes_with_selfloops g := by
    intro x hx hmem
    have h2 := hfil.2
    rw [Bool.not_eq_eq_eq_not, Bool.not_true, List.any_eq_false] at h2
    exact absurd (by simpa using hmem) (h2 x hx)
  obtain ⟨h0, t, rfl⟩ : ∃ h0 t, c = h0 :: t := by
    cases c with
    | nil => exact absurd rfl hcne
    | cons a b => exact ⟨a, b, rfl⟩
  rw [← hmap]
  simp only [List.isEmpty_cons, List.headD_cons, Bool.false_eq_true, if_false]
  refine ⟨?_, ?_, ?_⟩
  · intro x hx
    rcases List.mem_cons.mp hx with h1 | h2
    · subst h1
      exact hnotany x (List.mem_cons_self x t)
    · rcases List.mem_append.mp h2 with h3 | h4
      · exact hnotany x (List.mem_cons_of_mem _ h3)
      · have hx0 : x = h0 := by simpa using h4
        subst hx0
        exact hnotany x (List.mem_cons_self x t)
  · simp
  · rw [List.getLast?_concat, List.cons_append]
    rfl

/-- C7 witness: on a concrete graph with a self-loop at `3` and a raw
cycle list containing the degenerate cycle `[3]` and the 2-cycle
`[4, 5]`, the reporting properties hold. -/
theorem c7_cycle_report_witness :
    (∀ c ∈ [["3"], ["4", "5"]], c ≠ ([] : List String)) ∧
      ∀ c2 ∈ filtered_multi_node_cycles gC7 [["3"], ["4", "5"]],
        (∀ x ∈ c2, x ∉ nodes_with_selfloops gC7) ∧
        2 ≤ c2.length ∧ c2.head? = c2.getLast? :=
  ⟨by decide, c7_cycle_report gC7 [["3"], ["4", "5"]] (by decide)⟩

/-! ### Arithmetic lemmas for the heatmap (C3) -/

theorem foldl_max_bounds (l : List Nat) (a : Nat) :
    a ≤ l.foldl max a ∧ ∀ x ∈ l, x ≤ l.foldl max a := by
  induction l generalizing a with
  | nil => exact ⟨Nat.le_refl a, by simp⟩
  | cons y ys ih =>
    refine ⟨?_, ?_⟩
    · exact le_trans (Nat.le_max_left a y) (ih (max a y)).1
    · intro x hx
      rcases List.mem_cons.mp hx with h1 | h2
      · subst h1
        exact le_trans (Nat.le_max_right a x) (ih (max a x)).1
      · exact (ih (max a y)).2 x h2

theorem listMax_is_ub (l : List Nat) : ∀ x ∈ l, x ≤ listMax l :=
  (foldl_max_bounds l 0).2

theorem ceil_mul_ge (a bs : Nat) (hbs : 0 < bs) : a ≤ (a + bs - 1) / bs * bs := by
  have hdm := Nat.div_add_mod (a + bs - 1) bs
  have hlt : (a + bs - 1) % bs < bs := Nat.mod_lt _ hbs
  rw [Nat.mul_comm]
  omega

theorem sum_map_add (l : List β) (f g2 : β → Nat) :
    (l.map (fun k => f k + g2 k)).sum = (l.map f).sum + (l.map g2).sum := by
  induction l with
  | nil => rfl
  | cons x xs ih => simp [ih]; omega

theorem sum_ite_count (q m : Nat) :
    ((List.range m).map (fun k => if k = q then 1 else 0)).sum = if q < m then 1 else 0 := by
  induction m with
  | zero => simp
  | succ m ih =>
    rw [List.range_succ, List.map_append, List.sum_append, ih]
    simp only [List.map_cons, List.map_nil, List.sum_cons, List.sum_nil]
    by_cases h2 : m = q
    · subst h2
      rw [if_neg (Nat.lt_irrefl m), if_pos rfl, if_pos (Nat.lt_succ_self m)]
      omega
    · rw [if_neg h2]
      by_cases h1 : q < m
      · rw [if_pos h1, if_pos (Nat.lt_succ_of_lt h1)]
        omega
      · rw [if_neg h1, if_neg (by omega)]
        omega

theorem block_pred_iff (bs k x : Nat) (hbs : 0 < bs) :
    ((decide (k * bs ≤ x) && decide (x ≤ k * bs + bs - 1)) = true) ↔ x / bs = k := by
  simp only [Bool.and_eq_true, decide_eq_true_eq]
  constructor
  · rintro ⟨h1, h2⟩
    have hk : k ≤ x / bs := (Nat.le_div_iff_mul_le hbs).mpr h1
    have h3 : x < (k + 1) * bs := by
      have hkb : (k + 1) * bs = k * bs + bs := by ring
      omega
    have hk2 : x / bs < k + 1 := (Nat.div_lt_iff_lt_mul hbs).mpr (by rw [Nat.mul_comm] at h3 ⊢; omega)
    omega
  · intro h
    subst h
    refine ⟨Nat.div_mul_le_self x bs, ?_⟩
    have h3 : x < (x / bs + 1) * bs := by
      have h4 := (Nat.div_lt_iff_lt_mul hbs).mp (Nat.lt_succ_self (x / bs))
      rw [Nat.succ_eq_add_one] at h4
      exact h4
    have hkb : (x / bs + 1) * bs = x / bs * bs + bs := by ring
    omega

theorem sum_block_counts (l : List Nat) (bs m : Nat) (hbs : 0 < bs) :
    ((List.range m).map (fun k =>
      (l.filter (fun r => decide (k * bs ≤ r) && decide (r ≤ k * bs + bs - 1))).length)).sum
    = (l.filter (fun r => decide (r < m * bs))).length := by
  induction l with
  | nil => simp
  | cons x l ih =>
    have hlen : ∀ (p : Nat → Bool) (ys : List Nat),
        (List.filter p (x :: ys)).length
          = (List.filter p ys).length + (if p x then 1 else 0) := by
      intro p ys
      rw [List.filter_cons]
      split
      · simp [Nat.add_comm]
      · simp
    simp only [hlen]
    rw [sum_map_add, ih]
    have hmap : (List.range m).map
        (fun k => if (decide (k * bs ≤ x) && decide (x ≤ k * bs + bs - 1)) = true
          then 1 else 0)
        = (List.range m).map (fun k => if k = x / bs then 1 else 0) := by
      refine List.map_congr_left ?_
      intro k _
      by_cases h : (decide (k * bs ≤ x) && decide (x ≤ k * bs + bs - 1)) = true
      · rw [if_pos h, if_pos ((block_pred_iff bs k x hbs).mp h).symm]
      · rw [if_neg h, if_neg]
        intro hk
        exact h ((block_pred_iff bs k x hbs).mpr hk.symm)
    rw [hmap, sum_ite_count]
    have hdiv : x / bs < m ↔ x < m * bs := by
      rw [Nat.div_lt_iff_lt_mul hbs, Nat.mul_comm]
    by_cases hx : x < m * bs
    · rw [if_pos (hdiv.mpr hx), if_pos (by simpa using hx)]
    · rw [if_neg (fun h => hx (hdiv.mp h)), if_neg (by simpa using hx)]

theorem heatmapUpper_dvd (g : Graph) (bs : Nat) :
    bs ∣ heatmapUpper g bs := by
  unfold heatmapUpper
  split
  · exact dvd_zero bs
  · rcases Nat.le_total ((listMax (numeric_rule_ids g) + bs - 1) / bs * bs) bs with h | h
    · rw [Nat.max_eq_right h]
    · rw [Nat.max_eq_left h]
      exact dvd_mul_left bs _

/-- C3 (amended): the heatmap block counts sum to the number of
distinct integer values of numeric identifiers lying below the rounded
upper bound; every numeric identifier value lies below that bound
except possibly a maximal value that is an exact multiple of the block
size. -/
theorem c3_heatmap_sum (g : Graph) (bs : Nat) (hbs : 0 < bs) :
    ((calculate_heatmap_blocks g bs).map (fun b => b.2)).sum
      = ((numeric_rule_ids g).filter (fun r => decide (r < heatmapUpper g bs))).length ∧
    ∀ r ∈ numeric_rule_ids g,
      r < heatmapUpper g bs ∨ (bs ∣ r ∧ r = listMax (numeric_rule_ids g)) := by
  constructor
  · unfold calculate_heatmap_blocks
    by_cases hempty : (numeric_rule_ids g).isEmpty
    · rw [if_pos hempty]
      have : numeric_rule_ids g = [] := by simpa using hempty
      rw [this]
      rfl
    · rw [if_neg hempty]
      rw [List.map_map]
      have hmul : heatmapUpper g bs / bs * bs = heatmapUpper g bs :=
        Nat.div_mul_cancel (heatmapUpper_dvd g bs)
      have := sum_block_counts (numeric_rule_ids g) bs (heatmapUpper g bs / bs) hbs
      rw [hmul] at this
      exact this
  · intro r hr
    by_cases h : r < heatmapUpper g bs
    · exact Or.inl h
    · have hne : ¬(numeric_rule_ids g).isEmpty := by
        intro hcon
        have : numeric_rule_ids g = [] := by simpa using hcon
        rw [this] at hr
        simp at hr
      have hmx : r ≤ listMax (numeric_rule_ids g) := listMax_is_ub _ r hr
      have hceil : listMax (numeric_rule_ids g)
          ≤ (listMax (numeric_rule_ids g) + bs - 1) / bs * bs := ceil_mul_ge _ bs hbs
      have hup : listMax (numeric_rule_ids g) ≤ heatmapUpper g bs := by
        unfold heatmapUpper
        rw [if_neg hne]
        exact le_trans hceil (Nat.le_max_left _ _)
      have hge : heatmapUpper g bs ≤ r := Nat.le_of_not_lt h
      have hreq : r = heatmapUpper g bs := Nat.le_antisymm (le_trans hmx hup) hge
      refine Or.inr ⟨hreq ▸ heatmapUpper_dvd g bs, ?_⟩
      omega

/-- C3 counterexample: on the graph with numeric identifiers `"1"`,
`"01"` and `"10"`, the block counts sum to 1 while there are 3 purely
numeric identifiers other than `"0"` — `"01"` collapses onto the value
1 and the maximal value 10 sits on a block boundary and is counted by
no block, refuting the claimed sum and the claimed partition. -/
theorem c3_counterexample :
    ¬ (((calculate_heatmap_blocks gC3 10).map (fun b => b.2)).sum
        = (numericIdStrings gC3).length) ∧
    ((calculate_heatmap_blocks gC3 10).map (fun b => b.2)).sum = 1 ∧
    (numericIdStrings gC3).length = 3 := by
  refine ⟨by decide, by decide, by decide⟩

/-- C3 witness: the amended sum identity evaluated on a concrete graph
with identifiers 3 and 17 and block size 10. -/
theorem c3_heatmap_sum_witness :
    0 < 10 ∧
      ((calculate_heatmap_blocks gC3w 10).map (fun b => b.2)).sum
        = ((numeric_rule_ids gC3w).filter (fun r => decide (r < heatmapUpper gC3w 10))).length :=
  ⟨by decide, (c3_heatmap_sum gC3w 10 (by decide)).1⟩

/-! ### Unfolding equations for the parser branches -/

theorem parseChildList_nil (st : PState) (inh : List String) (file : String) :
    parseChildList st [] inh file = st := rfl

theorem parseChildList_cons (st : PState) (e : Element) (es : List Element)
    (inh : List String) (file : String) :
    parseChildList st (e :: es) inh file
      = parseChildList (parse_groups_and_rules st e inh file) es inh file := rfl

theorem parse_group_eq (st : PState) (a : List (String × String)) (tx : Option String)
    (cs : List Element) (inh : List String) (file : String) :
    parse_groups_and_rules st (.mk "group" a tx cs) inh file
      = parseChildList st cs
          (inh ++ List.filter (fun gr => gr != "")
            (pySplitComma ((Element.mk "group" a tx cs).getAttrD "name" ""))) file := rfl

theorem parse_other_eq (st : PState) (t : String) (a : List (String × String))
    (tx : Option String) (cs : List Element) (inh : List String) (file : String)
    (h1 : t ≠ "rule") (h2 : t ≠ "group") :
    parse_groups_and_rules st (.mk t a tx cs) inh file = st := by
  rw [parse_groups_and_rules]
  rw [if_neg (by simpa using h1), if_neg (by simpa using h2)]

theorem parse_rule_overwrite_eq (st : PState) (a : List (String × String))
    (tx : Option String) (cs : List Element) (inh : List String) (file : String)
    (how : pyLower ((Element.mk "rule" a tx cs).getAttrD "overwrite" "") = "yes") :
    parse_groups_and_rules st (.mk "rule" a tx cs) inh file
      = { st with overwrite_rules := st.overwrite_rules ++ [(Element.mk "rule" a tx cs, file)] } := by
  rw [parse_groups_and_rules]
  rw [if_pos (by simp), if_pos (by simpa using how)]

theorem parse_rule_dup_eq (st : PState) (a : List (String × String))
    (tx : Option String) (cs : List Element) (inh : List String) (file : String)
    (how : pyLower ((Element.mk "rule" a tx cs).getAttrD "overwrite" "") ≠ "yes")
    (hdup : st.G.hasNode ((Element.mk "rule" a tx cs).getAttrD "id" "0") = true) :
    parse_groups_and_rules st (.mk "rule" a tx cs) inh file = st := by
  rw [parse_groups_and_rules]
  rw [if_pos (by simp), if_neg (by simpa using how), if_pos hdup]

theorem parse_rule_fresh_eq (st : PState) (a : List (String × String))
    (tx : Option String) (cs : List Element) (inh : List String) (file : String)
    (how : pyLower ((Element.mk "rule" a tx cs).getAttrD "overwrite" "") ≠ "yes")
    (hfresh : st.G.hasNode ((Element.mk "rule" a tx cs).getAttrD "id" "0") = false) :
    parse_groups_and_rules st (.mk "rule" a tx cs) inh file
      = add_relationship_edges
          { st with
            G := st.G.addNodeUpd ((Element.mk "rule" a tx cs).getAttrD "id" "0")
              (fun _ =>
                ⟨some (extract_rule_groups inh (Element.mk "rule" a tx cs).childPairs),
                  extract_rule_description (Element.mk "rule" a tx cs).childPairs,
                  (Element.mk "rule" a tx cs).getAttr "level", none,
                  some (pyBasename file), none⟩),
            group_membership := registerGroups st.group_membership
              (extract_rule_groups inh (Element.mk "rule" a tx cs).childPairs)
              ((Element.mk "rule" a tx cs).getAttrD "id" "0") }
          ((Element.mk "rule" a tx cs).getAttrD "id" "0")
          ((Element.mk "rule" a tx cs).findtext "if_sid")
          ((Element.mk "rule" a tx cs).findtext "if_matched_sid")
          ((Element.mk "rule" a tx cs).findtext "if_group")
          ((Element.mk "rule" a tx cs).findtext "if_matched_group") := by
  rw [parse_groups_and_rules]
  rw [if_pos (by simp), if_neg (by simpa using how), if_neg (by simp [hfresh])]

/-! ### A structural induction principle for elements -/

mutual
theorem element_ind (motive : Element → Prop)
    (step : ∀ t a tx cs, (∀ c ∈ cs, motive c) → motive (.mk t a tx cs)) (e : Element) :
    motive e :=
  match e with
  | .mk t a tx cs => step t a tx cs (fun c hc => element_ind_list motive step cs c hc)
termination_by structural e

theorem element_ind_list (motive : Element → Prop)
    (step : ∀ t a tx cs, (∀ c ∈ cs, motive c) → motive (.mk t a tx cs))
    (cs : List Element) : ∀ c ∈ cs, motive c :=
  match cs with
  | [] => fun c hc => absurd hc (List.not_mem_nil c)
  | e :: es => fun c hc =>
    (List.mem_cons.mp hc).elim
      (fun h1 => by rw [h1]; exact element_ind motive step e)
      (fun h2 => element_ind_list motive step es c h2)
termination_by structural cs
end

/-! ### Monotonicity of the parse functions -/

theorem hasNode_addBlankNode_mono (g : Graph) (m n : String) (h : g.hasNode n = true) :
    (g.addBlankNode m).hasNode n = true := by
  unfold Graph.addBlankNode
  split
  · exact h
  · unfold Graph.hasNode at h ⊢
    rw [List.any_append]
    simp [h]

theorem hasNode_addEdge_mono (g : Graph) (u v ty n : String) (h : g.hasNode n = true) :
    (g.addEdge u v ty).hasNode n = true :=
  hasNode_addBlankNode_mono _ v n (hasNode_addBlankNode_mono g u n h)

theorem hasNode_addNodeUpd_mono (g : Graph) (n m : String) (f : NodeAttrs → NodeAttrs)
    (h : g.hasNode m = true) : (g.addNodeUpd n f).hasNode m = true := by
  rw [hasNode_iff_mem] at h ⊢
  rw [addNodeUpd_nodeIds]
  split
  · exact h
  · exact List.mem_append_left _ h

theorem hasNode_addNodeUpd_self (g : Graph) (n : String) (f : NodeAttrs → NodeAttrs) :
    (g.addNodeUpd n f).hasNode n = true := by
  rw [hasNode_iff_mem, addNodeUpd_nodeIds]
  split
  · exact (hasNode_iff_mem g n).mp (by assumption)
  · exact List.mem_append_right _ (by simp)

theorem hasNode_foldl_addEdge_mono (es : List (String × String × String)) (g : Graph)
    (n : String) (h : g.hasNode n = true) :
    (es.foldl (fun h2 e => h2.addEdge e.1 e.2.1 e.2.2) g).hasNode n = true := by
  induction es generalizing g with
  | nil => exact h
  | cons e es ih => exact ih _ (hasNode_addEdge_mono g e.1 e.2.1 e.2.2 n h)

theorem hasNode_addRel_mono (st : PState) (rule_id : String)
    (s ms gr mgr : Option String) (n : String) (h : st.G.hasNode n = true) :
    (add_relationship_edges st rule_id s ms gr mgr).G.hasNode n = true :=
  hasNode_foldl_addEdge_mono _ st.G n h

theorem parse_hasNode_mono (n : String) (e : Element) :
    ∀ (st : PState) (inh : List String) (file : String),
      st.G.hasNode n = true → (parse_groups_and_rules st e inh file).G.hasNode n = true := by
  induction e using element_ind with
  | step t a tx cs ih =>
    intro st inh file h
    have hlist : ∀ (cs2 : List Element),
        (∀ c ∈ cs2, ∀ (st2 : PState) (inh2 : List String) (file2 : String),
          st2.G.hasNode n = true →
          (parse_groups_and_rules st2 c inh2 file2).G.hasNode n = true) →
        ∀ (st2 : PState) (inh2 : List String) (file2 : String), st2.G.hasNode n = true →
          (parseChildList st2 cs2 inh2 file2).G.hasNode n = true := by
      intro cs2 hcs2
      induction cs2 with
      | nil => intro st2 inh2 file2 h2; exact h2
      | cons c2 cs3 ih3 =>
        intro st2 inh2 file2 h2
        rw [parseChildList_cons]
        exact ih3 (fun c hc => hcs2 c (List.mem_cons_of_mem _ hc)) _ inh2 file2
          (hcs2 c2 (List.mem_cons_self c2 cs3) st2 inh2 file2 h2)
    by_cases ht : t = "rule"
    · subst ht
      by_cases how : pyLower ((Element.mk "rule" a tx cs).getAttrD "overwrite" "") = "yes"
      · rw [parse_rule_overwrite_eq st a tx cs inh file how]
        exact h
      · by_cases hdup : st.G.hasNode ((Element.mk "rule" a tx cs).getAttrD "id" "0") = true
        · rw [parse_rule_dup_eq st a tx cs inh file how hdup]
          exact h
        · rw [parse_rule_fresh_eq st a tx cs inh file how (by simpa using hdup)]
          exact hasNode_addRel_mono _ _ _ _ _ _ n (hasNode_addNodeUpd_mono st.G _ n _ h)
    · by_cases hg : t = "group"
      · subst hg
        rw [parse_group_eq]
        exact hlist cs ih st _ file h
      · rw [parse_other_eq st t a tx cs inh file ht hg]
        exact h

theorem parseChildList_hasNode_mono (n : String) (cs : List Element) :
    ∀ (st : PState) (inh : List String) (file : String),
      st.G.hasNode n = true → (parseChildList st cs inh file).G.hasNode n = true := by
  induction cs with
  | nil => intro st inh file h; exact h
  | cons c cs ih =>
    intro st inh file h
    rw [parseChildList_cons]
    exact ih _ inh file (parse_hasNode_mono n c st inh file h)

/-! ### Attribute preservation under edge insertion -/

theorem attrsOf_addBlankNode_some (g : Graph) (m n : String) (a : NodeAttrs)
    (h : g.attrsOf n = some a) : (g.addBlankNode m).attrsOf n = some a := by
  unfold Graph.addBlankNode
  split
  · exact h
  · unfold Graph.attrsOf at h ⊢
    rcases Option.map_eq_some'.mp h with ⟨x, hfind, hx⟩
    rw [find?_append_some hfind]
    rw [Option.map_some', hx]

theorem attrsOf_addEdge_some (g : Graph) (u v ty n : String) (a : NodeAttrs)
    (h : g.attrsOf n = some a) : (g.addEdge u v ty).attrsOf n = some a :=
  attrsOf_addBlankNode_some _ v n a (attrsOf_addBlankNode_some g u n a h)

theorem attrsOf_foldl_addEdge_some (es : List (String × String × String)) (g : Graph)
    (n : String) (a : NodeAttrs) (h : g.attrsOf n = some a) :
    ((es.foldl (fun h2 e => h2.addEdge e.1 e.2.1 e.2.2) g)).attrsOf n = some a := by
  induction es generalizing g with
  | nil => exact h
  | cons e es ih => exact ih _ (attrsOf_addEdge_some g e.1 e.2.1 e.2.2 n a h)

theorem attrsOf_foldl_rootEdge_some (l : List String) (g : Graph)
    (n : String) (a : NodeAttrs) (h : g.attrsOf n = some a) :
    ((l.foldl (fun h2 m => h2.addEdge "0" m "root") g)).attrsOf n = some a := by
  induction l generalizing g with
  | nil => exact h
  | cons m l ih => exact ih _ (attrsOf_addEdge_some g "0" m "root" n a h)

theorem extract_rule_groups_eq (inh : List String) (cs : List (String × Option String)) :
    extract_rule_groups inh cs = inh ++ extract_rule_groups [] cs := by
  induction cs generalizing inh with
  | nil => simp [extract_rule_groups]
  | cons c cs ih =>
    unfold extract_rule_groups
    rw [List.foldl_cons, List.foldl_cons]
    have hstep : ∀ acc : List String,
        (if c.1 == "group" && pyTruthy c.2 then
          acc ++ (pySplitComma (c.2.getD "")).filter (fun g => g != "")
        else acc)
        = acc ++ (if c.1 == "group" && pyTruthy c.2 then
            (pySplitComma (c.2.getD "")).filter (fun g => g != "") else []) := by
      intro acc
      split
      · rfl
      · exact (List.append_nil acc).symm
    rw [hstep, hstep]
    have h1 := ih (inh ++ (if c.1 == "group" && pyTruthy c.2 then
      (pySplitComma (c.2.getD "")).filter (fun g => g != "") else []))
    have h2 := ih (([] : List String) ++ (if c.1 == "group" && pyTruthy c.2 then
      (pySplitComma (c.2.getD "")).filter (fun g => g != "") else []))
    unfold extract_rule_groups at h1 h2
    rw [h1, h2]
    simp

/-- C9: group scoping extends the inherited list with the non-empty
comma-segments of the enclosing group names in nesting order, and a
freshly created rule node stores exactly the inherited groups followed
by its own declared groups (empty segments removed on both sides). -/
theorem c9_group_accumulation :
    (∀ (st : PState) (a : List (String × String)) (tx : Option String)
        (cs : List Element) (inh : List String) (file : String),
      parse_groups_and_rules st (.mk "group" a tx cs) inh file
        = parseChildList st cs
            (inh ++ List.filter (fun gr => gr != "")
              (pySplitComma ((Element.mk "group" a tx cs).getAttrD "name" ""))) file) ∧
    ∀ (st : PState) (a : List (String × String)) (tx : Option String)
        (cs : List Element) (inh : List String) (file : String),
      pyLower ((Element.mk "rule" a tx cs).getAttrD "overwrite" "") ≠ "yes" →
      st.G.hasNode ((Element.mk "rule" a tx cs).getAttrD "id" "0") = false →
      ((parse_groups_and_rules st (.mk "rule" a tx cs) inh file).G.attrsOf
          ((Element.mk "rule" a tx cs).getAttrD "id" "0")).map (fun at2 => at2.groups)
        = some (some (inh ++ extract_rule_groups []
            (Element.mk "rule" a tx cs).childPairs)) := by
  constructor
  · intro st a tx cs inh file
    exact parse_group_eq st a tx cs inh file
  · intro st a tx cs inh file how hfresh
    rw [parse_rule_fresh_eq st a tx cs inh file how hfresh]
    have hbase : ((st.G.addNodeUpd ((Element.mk "rule" a tx cs).getAttrD "id" "0")
        (fun _ =>
          ⟨some (extract_rule_groups inh (Element.mk "rule" a tx cs).childPairs),
            extract_rule_description (Element.mk "rule" a tx cs).childPairs,
            (Element.mk "rule" a tx cs).getAttr "level", none,
            some (pyBasename file), none⟩)).attrsOf
          ((Element.mk "rule" a tx cs).getAttrD "id" "0"))
        = some ⟨some (extract_rule_groups inh (Element.mk "rule" a tx cs).childPairs),
            extract_rule_description (Element.mk "rule" a tx cs).childPairs,
            (Element.mk "rule" a tx cs).getAttr "level", none,
            some (pyBasename file), none⟩ :=
      attrsOf_addNodeUpd_fresh st.G _ _ hfresh
    rw [add_relationship_edges]
    rw [attrsOf_foldl_addEdge_some _ _ _ _ hbase]
    rw [Option.map_some']
    rw [extract_rule_groups_eq inh]

/-- C9 witness: parsing the rule `eC9rule` under inherited scope
`["a", "b", "c"]` stores groups `a, b, c, d`. -/
theorem c9_group_accumulation_witness :
    (pyLower (eC9rule.getAttrD "overwrite" "") ≠ "yes" ∧
      PState.empty.G.hasNode (eC9rule.getAttrD "id" "0") = false) ∧
    ((parse_groups_and_rules PState.empty eC9rule ["a", "b", "c"] "f.xml").G.attrsOf
        "5").map (fun at2 => at2.groups)
      = some (some (["a", "b", "c"] ++ extract_rule_groups [] eC9rule.childPairs)) :=
  ⟨⟨by decide, by decide⟩,
    c9_group_accumulation.2 PState.empty [("id", "5")] none
      [.mk "group" [] (some "d,") []] ["a", "b", "c"] "f.xml" (by decide) (by decide)⟩

/-! ### Root synthesis lemmas (C1, C10) -/

theorem foldl_rootEdge_edges (l : List String) (g : Graph) :
    (l.foldl (fun h2 n => h2.addEdge "0" n "root") g).edges
      = g.edges ++ l.map (fun n => ("0", n, "root")) := by
  induction l generalizing g with
  | nil => simp
  | cons m l ih =>
    rw [List.foldl_cons, ih, addEdge_edges]
    simp

theorem addEdge_nodes_of_hasNode (g : Graph) (u v ty : String)
    (hu : g.hasNode u = true) (hv : g.hasNode v = true) :
    (g.addEdge u v ty).nodes = g.nodes := by
  unfold Graph.addEdge Graph.addBlankNode
  rw [if_pos hu]
  rw [if_pos hv]

theorem foldl_rootEdge_nodes (l : List String) (g : Graph)
    (h0 : g.hasNode "0" = true) (hl : ∀ n ∈ l, g.hasNode n = true) :
    (l.foldl (fun h2 n => h2.addEdge "0" n "root") g).nodes = g.nodes := by
  induction l generalizing g with
  | nil => rfl
  | cons m l ih =>
    rw [List.foldl_cons]
    have hm : g.hasNode m = true := hl m (List.mem_cons_self m l)
    have hstep : (g.addEdge "0" m "root").nodes = g.nodes :=
      addEdge_nodes_of_hasNode g "0" m "root" h0 hm
    have hsame : ∀ x, (g.addEdge "0" m "root").hasNode x = g.hasNode x := by
      intro x
      unfold Graph.hasNode
      rw [hstep]
    rw [ih _ (by rw [hsame]; exact h0) (fun n hn => by rw [hsame]; exact hl n (List.mem_cons_of_mem m hn)), hstep]

theorem attrsOf_isSome_of_hasNode (g : Graph) (n : String) (h : g.hasNode n = true) :
    ∃ a, g.attrsOf n = some a := by
  unfold Graph.hasNode at h
  rcases List.any_eq_true.mp h with ⟨p, hp, hpred⟩
  unfold Graph.attrsOf
  have hsome : (g.nodes.find? (fun q => q.1 == n)).isSome = true :=
    List.find?_isSome.mpr ⟨p, hp, hpred⟩
  rcases Option.isSome_iff_exists.mp hsome with ⟨x, hx⟩
  exact ⟨x.2, by rw [hx]; rfl⟩

/-- C10: when a base rule with identifier `"0"` already exists before
Root Synthesis, the pass overwrites its description and groups with the
synthetic-root values (leaving its other attributes alone), and if it
had zero incoming edges it additionally receives the self-loop edge
`0 → 0` of kind `root`. -/
theorem c10_root_synthesis_zero (g : Graph) (h : g.hasNode "0" = true) :
    ∃ a, g.attrsOf "0" = some a ∧
      (root_synthesis g).attrsOf "0"
        = some { a with description := some "Synthetic root node",
                        groups := some ["__meta__"] } ∧
      (g.inDegree "0" = 0 → ("0", "0", "root") ∈ (root_synthesis g).edges) := by
  obtain ⟨a, ha⟩ := attrsOf_isSome_of_hasNode g "0" h
  refine ⟨a, ha, ?_, ?_⟩
  · unfold root_synthesis
    have h1 : (g.addNodeUpd "0" rootPatch).attrsOf "0" = some (rootPatch a) := by
      rw [attrsOf_addNodeUpd_self g "0" rootPatch h, ha]
      rfl
    exact attrsOf_foldl_rootEdge_some _ _ "0" _ h1
  · intro hdeg
    unfold root_synthesis
    rw [foldl_rootEdge_edges, addNodeUpd_edges]
    apply List.mem_append_right
    apply List.mem_map.mpr
    refine ⟨"0", ?_, rfl⟩
    exact List.mem_filter.mpr ⟨(hasNode_iff_mem g "0").mp h, by simp [hdeg]⟩

/-- C10 witness: a graph where `"0"` persists as a parsed rule with no
in-edges indeed keeps level and file, gains the synthetic description
and groups, and gains the `0 → 0` root self-loop. -/
theorem c10_root_synthesis_zero_witness :
    gC10.hasNode "0" = true ∧
      ∃ a, gC10.attrsOf "0" = some a ∧
        (root_synthesis gC10).attrsOf "0"
          = some { a with description := some "Synthetic root node",
                          groups := some ["__meta__"] } ∧
        (gC10.inDegree "0" = 0 → ("0", "0", "root") ∈ (root_synthesis gC10).edges) :=
  ⟨by decide, c10_root_synthesis_zero gC10 (by decide)⟩

/-- C1 (amended): after Root Synthesis every node other than `"0"` has
in-degree at least one, and every node with zero in-degree beforehand
receives a direct `root` edge from `"0"`. -/
theorem c1_root_in_degree (g : Graph) (n : String)
    (h1 : n ∈ (root_synthesis g).nodeIds) (h2 : n ≠ "0") :
    1 ≤ (root_synthesis g).inDegree n ∧
      (g.inDegree n = 0 → ("0", n, "root") ∈ (root_synthesis g).edges) := by
  have h0 : (g.addNodeUpd "0" rootPatch).hasNode "0" = true :=
    hasNode_addNodeUpd_self g "0" rootPatch
  have hfl : ∀ m ∈ g.nodeIds.filter (fun n2 => g.inDegree n2 == 0),
      (g.addNodeUpd "0" rootPatch).hasNode m = true := by
    intro m hm
    exact hasNode_addNodeUpd_mono g "0" m rootPatch
      ((hasNode_iff_mem g m).mpr (List.mem_filter.mp hm).1)
  have hnodes : (root_synthesis g).nodes = (g.addNodeUpd "0" rootPatch).nodes :=
    foldl_rootEdge_nodes _ _ h0 hfl
  have hmem : n ∈ g.nodeIds := by
    have hids : (root_synthesis g).nodeIds = (g.addNodeUpd "0" rootPatch).nodeIds := by
      unfold Graph.nodeIds
      rw [hnodes]
    rw [hids, addNodeUpd_nodeIds] at h1
    split at h1
    · exact h1
    · rcases List.mem_append.mp h1 with hx | hx
      · exact hx
      · exact absurd (by simpa using hx) h2
  have hedges : (root_synthesis g).edges
      = g.edges ++ (g.nodeIds.filter (fun n2 => g.inDegree n2 == 0)).map
          (fun m => ("0", m, "root")) := by
    unfold root_synthesis
    rw [foldl_rootEdge_edges, addNodeUpd_edges]
  have hrootedge : g.inDegree n = 0 → ("0", n, "root") ∈ (root_synthesis g).edges := by
    intro hdeg
    rw [hedges]
    apply List.mem_append_right
    exact List.mem_map.mpr ⟨n, List.mem_filter.mpr ⟨hmem, by simp [hdeg]⟩, rfl⟩
  refine ⟨?_, hrootedge⟩
  by_cases hdeg : g.inDegree n = 0
  · have hm := hrootedge hdeg
    have : ("0", n, "root") ∈ (root_synthesis g).edges.filter (fun e => e.2.1 == n) :=
      List.mem_filter.mpr ⟨hm, by simp⟩
    exact List.length_pos_of_mem this
  · rw [Graph.inDegree, hedges, List.filter_append, List.length_append]
    have hpos : 1 ≤ (g.edges.filter (fun e => e.2.1 == n)).length :=
      Nat.pos_of_ne_zero hdeg
    omega

/-- C1 witness: the amended in-degree property evaluated on the graph
built from `ruleNine` and `ruleNoId`. -/
theorem c1_root_in_degree_witness :
    ("9" ∈ (root_synthesis (apply_overwrites (parseChildList PState.empty
        [ruleNine, ruleNoId] [] "f.xml")).G).nodeIds ∧ "9" ≠ "0") ∧
      1 ≤ (root_synthesis (apply_overwrites (parseChildList PState.empty
        [ruleNine, ruleNoId] [] "f.xml")).G).inDegree "9" :=
  ⟨⟨by decide, by decide⟩,
    (c1_root_in_degree (apply_overwrites (parseChildList PState.empty
        [ruleNine, ruleNoId] [] "f.xml")).G "9" (by decide) (by decide)).1⟩

/-- C1 counterexample: in the graph built from `ruleNine` (a rule whose
only in-edge is its own self-loop) and `ruleNoId` (a rule that defaults
to identifier `"0"`), node `"9"` is not reachable from the synthetic
root, and the root has an incoming edge (its own `root` self-loop). -/
theorem c1_counterexample :
    "9" ∈ stC1.G.nodeIds ∧ "9" ≠ "0" ∧ ¬ stC1.G.Reachable "0" "9" ∧
      ("0", "0", "root") ∈ stC1.G.edges := by
  refine ⟨by decide, by decide, ?_, by decide⟩
  have hedges : stC1.G.edges = [("9", "9", "if_sid"), ("0", "0", "root")] := by decide
  intro hreach
  have hall : ∀ b, Relation.ReflTransGen stC1.G.HasEdge "0" b → b = "0" := by
    intro b hb
    induction hb with
    | refl => rfl
    | tail hab hbc ih =>
      rename_i b2 c2
      rcases hbc with ⟨ty, hmem⟩
      rw [hedges] at hmem
      rcases List.mem_cons.mp hmem with hcase | hcase
      · rw [ih] at hcase
        have h9 : ("0" : String) = "9" := congrArg Prod.fst hcase
        exact absurd h9 (by decide)
      · have hcase2 : (b2, c2, ty) = (("0", "0", "root") : String × String × String) := by
          simpa using hcase
        exact congrArg (fun p => p.2.1) hcase2
  have h9 : ("9" : String) = "0" := hall "9" hreach
  exact absurd h9 (by decide)

/-! ### Edge bookkeeping for the relationship resolver (C4) -/

theorem foldl_addEdge_edges_general (es : List (String × String × String)) (g : Graph) :
    (es.foldl (fun h2 ed => h2.addEdge ed.1 ed.2.1 ed.2.2) g).edges = g.edges ++ es := by
  induction es generalizing g with
  | nil => simp
  | cons e es ih =>
    rw [List.foldl_cons, ih, addEdge_edges]
    simp

theorem relationshipEdges_target (gm : GroupIndex) (rid : String)
    (s ms gr mgr : Option String) :
    ∀ ed ∈ relationshipEdges gm rid s ms gr mgr, ed.2.1 = rid := by
  intro ed hed
  unfold relationshipEdges at hed
  rcases List.mem_append.mp hed with h1 | h4
  · rcases List.mem_append.mp h1 with h2 | h3
    · rcases List.mem_append.mp h2 with h5 | h6
      · rcases List.mem_map.mp h5 with ⟨x, -, rfl⟩
        rfl
      · rcases List.mem_map.mp h6 with ⟨x, -, rfl⟩
        rfl
    · rcases List.mem_flatMap.mp h3 with ⟨gname, -, hmem⟩
      rcases List.mem_map.mp hmem with ⟨x, -, rfl⟩
      rfl
  · rcases List.mem_flatMap.mp h4 with ⟨gname, -, hmem⟩
    rcases List.mem_map.mp hmem with ⟨x, -, rfl⟩
    rfl

theorem parse_pres_edges_into (r : String) (e : Element) :
    ∀ (st : PState) (inh : List String) (file : String),
      st.G.hasNode r = true →
      (parse_groups_and_rules st e inh file).G.edges.filter (fun ed => ed.2.1 == r)
        = st.G.edges.filter (fun ed => ed.2.1 == r) := by
  induction e using element_ind with
  | step t a tx cs ih =>
    intro st inh file h
    have hlist : ∀ (cs2 : List Element),
        (∀ c ∈ cs2, ∀ (st2 : PState) (inh2 : List String) (file2 : String),
          st2.G.hasNode r = true →
          (parse_groups_and_rules st2 c inh2 file2).G.edges.filter (fun ed => ed.2.1 == r)
            = st2.G.edges.filter (fun ed => ed.2.1 == r)) →
        ∀ (st2 : PState) (inh2 : List String) (file2 : String), st2.G.hasNode r = true →
          (parseChildList st2 cs2 inh2 file2).G.edges.filter (fun ed => ed.2.1 == r)
            = st2.G.edges.filter (fun ed => ed.2.1 == r) := by
      intro cs2 hcs2
      induction cs2 with
      | nil => intro st2 inh2 file2 _; rfl
      | cons c2 cs3 ih3 =>
        intro st2 inh2 file2 h2
        rw [parseChildList_cons]
        rw [ih3 (fun c hc => hcs2 c (List.mem_cons_of_mem _ hc)) _ inh2 file2
          (parse_hasNode_mono r c2 st2 inh2 file2 h2)]
        exact hcs2 c2 (List.mem_cons_self c2 cs3) st2 inh2 file2 h2
    by_cases ht : t = "rule"
    · subst ht
      by_cases how : pyLower ((Element.mk "rule" a tx cs).getAttrD "overwrite" "") = "yes"
      · rw [parse_rule_overwrite_eq st a tx cs inh file how]
      · by_cases hdup : st.G.hasNode ((Element.mk "rule" a tx cs).getAttrD "id" "0") = true
        · rw [parse_rule_dup_eq st a tx cs inh file how hdup]
        · have hfresh : st.G.hasNode ((Element.mk "rule" a tx cs).getAttrD "id" "0") = false := by
            simpa using hdup
          rw [parse_rule_fresh_eq st a tx cs inh file how hfresh]
          rw [add_relationship_edges]
          rw [foldl_addEdge_edges_general, addNodeUpd_edges, List.filter_append]
          have hnil : (relationshipEdges
              (registerGroups st.group_membership
                (extract_rule_groups inh (Element.mk "rule" a tx cs).childPairs)
                ((Element.mk "rule" a tx cs).getAttrD "id" "0"))
              ((Element.mk "rule" a tx cs).getAttrD "id" "0")
              ((Element.mk "rule" a tx cs).findtext "if_sid")
              ((Element.mk "rule" a tx cs).findtext "if_matched_sid")
              ((Element.mk "rule" a tx cs).findtext "if_group")
              ((Element.mk "rule" a tx cs).findtext "if_matched_group")).filter
                (fun ed => ed.2.1 == r) = [] := by
            rw [List.filter_eq_nil_iff]
            intro ed hed
            rw [relationshipEdges_target _ _ _ _ _ _ ed hed]
            intro hcon
            rw [beq_iff_eq] at hcon
            rw [hcon] at hfresh
            rw [h] at hfresh
            exact Bool.noConfusion hfresh
          rw [hnil, List.append_nil]
    · by_cases hg : t = "group"
      · subst hg
        rw [parse_group_eq]
        exact hlist cs ih st _ file h
      · rw [parse_other_eq st t a tx cs inh file ht hg]

theorem parseChildList_pres_edges_into (r : String) (cs : List Element) :
    ∀ (st : PState) (inh : List String) (file : String),
      st.G.hasNode r = true →
      (parseChildList st cs inh file).G.edges.filter (fun ed => ed.2.1 == r)
        = st.G.edges.filter (fun ed => ed.2.1 == r) := by
  induction cs with
  | nil => intro st inh file _; rfl
  | cons c cs ih =>
    intro st inh file h
    rw [parseChildList_cons]
    rw [ih _ inh file (parse_hasNode_mono r c st inh file h)]
    exact parse_pres_edges_into r c st inh file h

theorem ifGroupSources_eq_filter_kind (g : Graph) (r : String) :
    ifGroupSources g r
      = ((g.edges.filter (fun ed => ed.2.1 == r)).filter
          (fun ed => ed.2.2 == "if_group")).map (fun ed => ed.1) := by
  unfold ifGroupSources
  congr 1
  rw [List.filter_filter]
  exact List.filter_congr (fun ed _ => by rw [Bool.and_comm])

theorem map_fst_triple (l : List String) (rid k : String) :
    (l.map (fun parent => (parent, rid, k))).map (fun ed => ed.1) = l := by
  induction l with
  | nil => rfl
  | cons x xs ih => simp [ih]

theorem relEdges_ifGroup (gm : GroupIndex) (rid : String) (s ms gr mgr : Option String) :
    ((relationshipEdges gm rid s ms gr mgr).filter
        (fun ed => ed.2.2 == "if_group")).map (fun ed => ed.1)
      = (splitRefList gr).flatMap (fun gname => gmGet gm gname) := by
  unfold relationshipEdges
  rw [List.filter_append, List.filter_append, List.filter_append]
  have hA : (((splitRefList s).map (fun sid => (sid, rid, "if_sid"))).filter
      (fun ed => ed.2.2 == "if_group")) = [] := by
    rw [List.filter_eq_nil_iff]
    intro ed hed
    rcases List.mem_map.mp hed with ⟨x, -, rfl⟩
    exact (by decide : ¬(("if_sid" == "if_group") = true))
  have hB : (((splitRefList ms).map (fun sid => (sid, rid, "if_matched_sid"))).filter
      (fun ed => ed.2.2 == "if_group")) = [] := by
    rw [List.filter_eq_nil_iff]
    intro ed hed
    rcases List.mem_map.mp hed with ⟨x, -, rfl⟩
    exact (by decide : ¬(("if_matched_sid" == "if_group") = true))
  have hD : (((splitRefList mgr).flatMap (fun gname => (gmGet gm gname).map
      (fun parent => (parent, rid, "if_matched_group")))).filter
      (fun ed => ed.2.2 == "if_group")) = [] := by
    rw [List.filter_eq_nil_iff]
    intro ed hed
    rcases List.mem_flatMap.mp hed with ⟨gname, -, hmem⟩
    rcases List.mem_map.mp hmem with ⟨x, -, rfl⟩
    exact (by decide : ¬(("if_matched_group" == "if_group") = true))
  have hC : (((splitRefList gr).flatMap (fun gname => (gmGet gm gname).map
      (fun parent => (parent, rid, "if_group")))).filter
      (fun ed => ed.2.2 == "if_group"))
      = (splitRefList gr).flatMap (fun gname => (gmGet gm gname).map
          (fun parent => (parent, rid, "if_group"))) := by
    rw [List.filter_eq_self]
    intro ed hed
    rcases List.mem_flatMap.mp hed with ⟨gname, -, hmem⟩
    rcases List.mem_map.mp hmem with ⟨x, -, rfl⟩
    exact (by decide : (("if_group" == "if_group") = true))
  rw [hA, hB, hC, hD]
  simp only [List.nil_append, List.append_nil]
  rw [List.map_flatMap]
  congr 1
  funext gname
  exact map_fst_triple (gmGet gm gname) rid "if_group"

/-- C4 (amended): a rule carrying an `if_group` reference receives
`if_group` in-edges exactly from the members of the referenced groups
present in the group index at the moment its relationships are resolved
— that is, the members registered strictly before it plus the rule
itself when it belongs to a referenced group — and nothing parsed later
(in particular a new member of the group) ever adds an edge into it. -/
theorem c4_if_group_snapshot (st : PState) (a : List (String × String))
    (tx : Option String) (cs : List Element) (inh : List String) (file : String)
    (es : List Element)
    (how : pyLower ((Element.mk "rule" a tx cs).getAttrD "overwrite" "") ≠ "yes")
    (hfresh : st.G.hasNode ((Element.mk "rule" a tx cs).getAttrD "id" "0") = false)
    (hclean : st.G.edges.filter
      (fun ed => ed.2.1 == (Element.mk "rule" a tx cs).getAttrD "id" "0") = []) :
    ifGroupSources
        (parseChildList (parse_groups_and_rules st (.mk "rule" a tx cs) inh file)
          es inh file).G
        ((Element.mk "rule" a tx cs).getAttrD "id" "0")
      = (splitRefList ((Element.mk "rule" a tx cs).findtext "if_group")).flatMap
          (fun gname => gmGet
            (registerGroups st.group_membership
              (extract_rule_groups inh (Element.mk "rule" a tx cs).childPairs)
              ((Element.mk "rule" a tx cs).getAttrD "id" "0")) gname) := by
  rw [parse_rule_fresh_eq st a tx cs inh file how hfresh]
  rw [ifGroupSources_eq_filter_kind]
  rw [parseChildList_pres_edges_into _ es _ inh file
    (hasNode_addRel_mono _ _ _ _ _ _ _
      (hasNode_addNodeUpd_self st.G ((Element.mk "rule" a tx cs).getAttrD "id" "0") _))]
  rw [add_relationship_edges]
  rw [foldl_addEdge_edges_general, addNodeUpd_edges, List.filter_append, hclean,
    List.nil_append]
  have hself : (relationshipEdges
      (registerGroups st.group_membership
        (extract_rule_groups inh (Element.mk "rule" a tx cs).childPairs)
        ((Element.mk "rule" a tx cs).getAttrD "id" "0"))
      ((Element.mk "rule" a tx cs).getAttrD "id" "0")
      ((Element.mk "rule" a tx cs).findtext "if_sid")
      ((Element.mk "rule" a tx cs).findtext "if_matched_sid")
      ((Element.mk "rule" a tx cs).findtext "if_group")
      ((Element.mk "rule" a tx cs).findtext "if_matched_group")).filter
        (fun ed => ed.2.1 == (Element.mk "rule" a tx cs).getAttrD "id" "0")
      = relationshipEdges
      (registerGroups st.group_membership
        (extract_rule_groups inh (Element.mk "rule" a tx cs).childPairs)
        ((Element.mk "rule" a tx cs).getAttrD "id" "0"))
      ((Element.mk "rule" a tx cs).getAttrD "id" "0")
      ((Element.mk "rule" a tx cs).findtext "if_sid")
      ((Element.mk "rule" a tx cs).findtext "if_matched_sid")
      ((Element.mk "rule" a tx cs).findtext "if_group")
      ((Element.mk "rule" a tx cs).findtext "if_matched_group") := by
    rw [List.filter_eq_self]
    intro ed hed
    rw [relationshipEdges_target _ _ _ _ _ _ ed hed]
    exact beq_self_eq_true _
  rw [hself]
  exact relEdges_ifGroup _ _ _ _ _ _

/-- C4 counterexample: rule `7` both declares membership of group `g`
and references `g` via `if_group`; the resolver adds the self-edge
`7 → 7` of kind `if_group` although no member of `g` was registered
strictly before rule `7` was processed (the index for `g` was empty). -/
theorem c4_counterexample :
    ("7", "7", "if_group") ∈ (parse_groups_and_rules PState.empty ruleSeven [] "f.xml").G.edges ∧
      gmGet PState.empty.group_membership "g" = [] :=
  ⟨by decide, rfl⟩

/-- C4 witness: rule `100002` references `syslog` whose only registered
member is `100001`; processing a later rule that joins `syslog` does
not add any `if_group` in-edge to `100002`. -/
theorem c4_if_group_snapshot_witness :
    (pyLower (eC4.getAttrD "overwrite" "") ≠ "yes" ∧
      stC4.G.hasNode (eC4.getAttrD "id" "0") = false ∧
      stC4.G.edges.filter (fun ed => ed.2.1 == eC4.getAttrD "id" "0") = []) ∧
    ifGroupSources
        (parseChildList (parse_groups_and_rules stC4 eC4 [] "b.xml")
          [eC4later] [] "b.xml").G (eC4.getAttrD "id" "0")
      = (splitRefList (eC4.findtext "if_group")).flatMap
          (fun gname => gmGet
            (registerGroups stC4.group_membership
              (extract_rule_groups [] eC4.childPairs) (eC4.getAttrD "id" "0")) gname) :=
  ⟨⟨by decide, by decide, by decide⟩,
    c4_if_group_snapshot stC4 [("id", "100002")] none
      [.mk "if_group" [] (some "syslog") []] [] "b.xml" [eC4later]
      (by decide) (by decide) (by decide)⟩

/-! ### Sanitizer lemmas (C5) -/

theorem afterGt_length (s r : List Char) (h : afterGt s = some r) : r.length < s.length := by
  induction s with
  | nil => exact absurd h (by simp [afterGt])
  | cons c cs ih =>
    rw [afterGt] at h
    split at h
    · cases h
      simp
    · have := ih h
      simp
      omega

theorem afterCI_length (pat s r : List Char) (hpat : pat ≠ [])
    (h : afterCI pat s = some r) : r.length < s.length := by
  induction s with
  | nil =>
    rw [afterCI] at h
    split at h
    · rename_i hstart
      cases pat with
      | nil => exact absurd rfl hpat
      | cons p ps => exact absurd hstart (by simp [ciStarts])
    · exact absurd h (by simp)
  | cons c cs ih =>
    rw [afterCI] at h
    split at h
    · cases h
      cases pat with
      | nil => exact absurd rfl hpat
      | cons p ps =>
        simp [List.length_drop]
        omega
    · have := ih h
      simp
      omega

theorem regexMatchRest_length (s r : List Char) (h : regexMatchRest s = some r) :
    r.length < s.length := by
  unfold regexMatchRest at h
  split at h
  · rename_i hstart
    split at h
    · exact absurd h (by simp)
    · rename_i c cs hdrop
      split at h
      · rcases Option.bind_eq_some.mp h with ⟨r1, hgt, hci⟩
        have h1 := afterGt_length cs r1 hgt
        have h2 := afterCI_length closeTag r1 r (by simp [closeTag]) hci
        have h4 : (s.drop 6).length = s.length - 6 := List.length_drop 6 s
        rw [hdrop] at h4
        simp at h4
        omega
      · exact absurd h (by simp)
  · exact absurd h (by simp)

theorem removeRegexAux_cons_some (fuel : Nat) (c : Char) (cs rest : List Char)
    (hm : regexMatchRest (c :: cs) = some rest) :
    removeRegexAux (fuel + 1) (c :: cs) = removeRegexAux fuel rest := by
  rw [removeRegexAux, hm]

theorem removeRegexAux_cons_none (fuel : Nat) (c : Char) (cs : List Char)
    (hm : regexMatchRest (c :: cs) = none) :
    removeRegexAux (fuel + 1) (c :: cs) = c :: removeRegexAux fuel cs := by
  rw [removeRegexAux, hm]

theorem removeRegexAux_fuel (f1 f2 : Nat) (s : List Char)
    (h1 : s.length ≤ f1) (h2 : s.length ≤ f2) :
    removeRegexAux f1 s = removeRegexAux f2 s := by
  induction f1 generalizing f2 s with
  | zero =>
    have hs : s = [] := by
      cases s with
      | nil => rfl
      | cons c cs => simp at h1
    subst hs
    cases f2 with
    | zero => rfl
    | succ f2 => rfl
  | succ f1 ih =>
    cases s with
    | nil =>
      cases f2 with
      | zero => rfl
      | succ f2 => rfl
    | cons c cs =>
      cases f2 with
      | zero => simp at h2
      | succ f2 =>
        rcases hm : regexMatchRest (c :: cs) with _ | rest
        · rw [removeRegexAux_cons_none f1 c cs hm, removeRegexAux_cons_none f2 c cs hm]
          have hcs : cs.length ≤ f1 := by simp at h1; omega
          have hcs2 : cs.length ≤ f2 := by simp at h2; omega
          rw [ih f2 cs hcs hcs2]
        · rw [removeRegexAux_cons_some f1 c cs rest hm,
            removeRegexAux_cons_some f2 c cs rest hm]
          have hlen := regexMatchRest_length (c :: cs) rest hm
          have hr1 : rest.length ≤ f1 := by simp at h1 hlen; omega
          have hr2 : rest.length ≤ f2 := by simp at h2 hlen; omega
          rw [ih f2 rest hr1 hr2]

theorem afterGt_skip (a b : List Char) (h : ('>' : Char) ∉ a) :
    afterGt (a ++ '>' :: b) = some b := by
  induction a with
  | nil => rfl
  | cons c cs ih =>
    rw [List.cons_append, afterGt]
    rw [if_neg (by simpa using fun hc => h (by simp [hc]))]
    exact ih (fun hc => h (List.mem_cons_of_mem c hc))

theorem afterCI_close (content b : List Char)
    (h : ∀ x ∈ content, (('<' : Char) == pyToLower x) = false) :
    afterCI closeTag (content ++ closeTag ++ b) = some b := by
  induction content with
  | nil => rfl
  | cons c cs ih =>
    have hstep : (c :: cs) ++ closeTag ++ b = c :: (cs ++ (closeTag ++ b)) := by simp
    rw [hstep, afterCI]
    have hc : ciStarts closeTag (c :: (cs ++ (closeTag ++ b))) = false := by
      show ((('<' : Char) == pyToLower c) && _) = false
      rw [h c (List.mem_cons_self c cs), Bool.false_and]
    rw [if_neg (by simp [hc])]
    have hih := ih (fun x hx => h x (List.mem_cons_of_mem c hx))
    rw [List.append_assoc] at hih
    exact hih

theorem regexMatchRest_block (w : Char) (a c b : List Char)
    (hw : pyIsSpace w = true) (ha : ('>' : Char) ∉ a)
    (hc : ∀ x ∈ c, (('<' : Char) == pyToLower x) = false) :
    regexMatchRest
        ('<' :: 'r' :: 'e' :: 'g' :: 'e' :: 'x' :: w :: (a ++ '>' :: (c ++ closeTag ++ b)))
      = some b := by
  unfold regexMatchRest
  rw [if_pos (by rfl)]
  show (if pyIsSpace w = true then
      (afterGt (a ++ '>' :: (c ++ closeTag ++ b))).bind (afterCI closeTag) else none) = some b
  rw [if_pos hw, afterGt_skip a _ ha]
  show afterCI closeTag (c ++ closeTag ++ b) = some b
  exact afterCI_close c b hc

theorem removeRegexAux_no_lt (fuel : Nat) (s : List Char)
    (h : ∀ x ∈ s, (('<' : Char) == pyToLower x) = false) :
    removeRegexAux fuel s = s := by
  induction fuel generalizing s with
  | zero => rfl
  | succ fuel ih =>
    cases s with
    | nil => rfl
    | cons c cs =>
      have hcin : ciStarts openTag (c :: cs) = false := by
        show ((('<' : Char) == pyToLower c) && _) = false
        rw [h c (List.mem_cons_self c cs), Bool.false_and]
      have hm : regexMatchRest (c :: cs) = none := by
        unfold regexMatchRest
        rw [if_neg (by simp [hcin])]
      rw [removeRegexAux_cons_none fuel c cs hm]
      rw [ih cs (fun x hx => h x (List.mem_cons_of_mem c hx))]

/-- C5 (amended): the sanitizer removes every block whose opening tag
is `<regex` followed by at least one whitespace character, running to
the first `>` and from there to the first case-insensitive `</regex>`
(shown here for blocks whose attribute section contains no `>` and
whose content contains no `<`), and then continues on the remainder;
text containing no `<` at all is left unchanged.  An attribute-less
open tag `<regex>` is not matched by REGEX_FINDER. -/
theorem c5_regex_removal (w : Char) (attrsPart content b : String)
    (hw : pyIsSpace w = true)
    (ha : ('>' : Char) ∉ attrsPart.data)
    (hc : ∀ x ∈ content.data, (('<' : Char) == pyToLower x) = false) :
    remove_regex_field
        ⟨'<' :: 'r' :: 'e' :: 'g' :: 'e' :: 'x' :: w ::
          (attrsPart.data ++ '>' :: (content.data ++ closeTag ++ b.data))⟩
      = remove_regex_field b ∧
    ∀ s : String, (∀ x ∈ s.data, (('<' : Char) == pyToLower x) = false) →
      remove_regex_field s = s := by
  constructor
  · have hm := regexMatchRest_block w attrsPart.data content.data b.data hw ha hc
    unfold remove_regex_field
    congr 1
    show removeRegexAux
        (('<' :: 'r' :: 'e' :: 'g' :: 'e' :: 'x' :: w ::
          (attrsPart.data ++ '>' :: (content.data ++ closeTag ++ b.data))).length)
        ('<' :: 'r' :: 'e' :: 'g' :: 'e' :: 'x' :: w ::
          (attrsPart.data ++ '>' :: (content.data ++ closeTag ++ b.data)))
      = removeRegexAux b.data.length b.data
    rw [List.length_cons,
      removeRegexAux_cons_some _ '<' _ b.data hm]
    have hble : b.data.length ≤
        ('r' :: 'e' :: 'g' :: 'e' :: 'x' :: w ::
          (attrsPart.data ++ '>' :: (content.data ++ closeTag ++ b.data))).length := by
      simp [closeTag]
      omega
    exact removeRegexAux_fuel _ _ b.data hble (Nat.le_refl _)
  · intro s hs
    unfold remove_regex_field
    rw [removeRegexAux_no_lt s.data.length s.data hs]

/-- C5 counterexample: the block `<regex>a</regex>` is delimited by a
regex-tagged element but is NOT removed by the sanitizer, because
REGEX_FINDER demands at least one whitespace character after the tag
name (`<regex\s+...>`). -/
theorem c5_counterexample :
    remove_regex_field "<regex>a</regex>" = "<regex>a</regex>" ∧
      ("<regex>a</regex>" : String) ≠ "" :=
  ⟨by decide, by decide⟩

/-- C5 witness: a concrete whitespace-bearing regex block is removed
and only the remainder survives. -/
theorem c5_regex_removal_witness :
    (pyIsSpace ' ' = true ∧ ('>' : Char) ∉ "x=1".data ∧
      ∀ x ∈ "a&b".data, (('<' : Char) == pyToLower x) = false) ∧
    remove_regex_field
        ⟨'<' :: 'r' :: 'e' :: 'g' :: 'e' :: 'x' :: ' ' ::
          ("x=1".data ++ '>' :: ("a&b".data ++ closeTag ++ "tail".data))⟩
      = remove_regex_field "tail" :=
  ⟨⟨by decide, by decide, by decide⟩,
    (c5_regex_removal ' ' "x=1" "a&b" "tail" (by decide) (by decide) (by decide)).1⟩

end Rulevis
